import Mathlib

/-!
Verification of the text-extraction protocol and batch orchestration of the
video-analysis pipeline (`pipeline_app.py`).

Strings are modelled as `List Char`.  The Python string primitives used by
`parse_analysis` (`str.replace`, `str.find`, `str.strip`, slicing) are embedded
directly, and the single regular expression

  `\*\*Question(?:\s*\d+)?\:\*\*\s*(.*?)\s*\*\*Answer:\*\*\s*(.*?)\s*\*\*Context:\*\*\s*\"?(.+?)\"?(?=\n\s*\*\*|$)`

used with `re.findall(..., flags=re.DOTALL)` is embedded as an explicit
backtracking matcher with exactly the engine's semantics (leftmost scan,
lazy groups, greedy whitespace and optional quotes, chronological
backtracking, `$` also matching before a final newline).
-/

set_option maxHeartbeats 1000000

namespace Pipeline

/-- Python `str.isspace` on the characters Python's `str.strip` and `\s` treat
as whitespace in the ASCII range (the inputs here are ASCII markdown). -/
def pyIsSpace (ch : Char) : Bool :=
  ch == ' ' || ch == '\t' || ch == '\n' || ch == '\r' || ch == '\x0b' || ch == '\x0c'

/-- `leadsWith p s` holds when `p` is an initial segment of `s`. -/
def leadsWith : List Char → List Char → Bool
  | [], _ => true
  | _ :: _, [] => false
  | p :: ps, c :: cs => p == c && leadsWith ps cs

/-- Leading-whitespace removal (`str.lstrip`). -/
def stripLeading (s : List Char) : List Char := s.dropWhile pyIsSpace

/-- Trailing-whitespace removal (`str.rstrip`). -/
def stripTrailing (s : List Char) : List Char := (s.reverse.dropWhile pyIsSpace).reverse

/-- Python `str.strip`. -/
def strip (s : List Char) : List Char := stripTrailing (stripLeading s)

/-- Helper for `pyFind`: first index `≥ i` at which `pat` occurs. -/
def pyFindAux (pat : List Char) : List Char → Nat → Option Nat
  | [], i => if leadsWith pat [] then some i else none
  | c :: t, i => if leadsWith pat (c :: t) then some i else pyFindAux pat t (i + 1)

/-- Python `str.find`: index of the first occurrence of `pat`, with `none`
playing the role of Python's `-1`. -/
def pyFind (pat s : List Char) : Option Nat := pyFindAux pat s 0

/-- Python slice `s[a:b]` for non-negative bounds (clamping included). -/
def pySlice (s : List Char) (a b : Nat) : List Char := (s.take b).drop a

/-- Fuelled worker for `pyReplace`.  The fuel only serves to make the
recursion structural; `pyReplace` always supplies enough of it. -/
def pyReplaceF (pat rep : List Char) : Nat → List Char → List Char
  | _, [] => []
  | 0, s => s
  | Nat.succ n, c :: t =>
    if pat ≠ [] ∧ leadsWith pat (c :: t) = true then
      rep ++ pyReplaceF pat rep n ((c :: t).drop pat.length)
    else
      c :: pyReplaceF pat rep n t

/-- Python `str.replace` for a non-empty pattern: replace the non-overlapping
occurrences of `pat` left to right, continuing the scan after each
replacement.  (The code only ever calls it with a fixed non-empty literal
pattern, so the empty-pattern case never arises.) -/
def pyReplace (s pat rep : List Char) : List Char := pyReplaceF pat rep s.length s

/-- The canonical summary marker of the parser. -/
def summaryMarker : List Char := "**Summary:**".data

/-- The canonical Q&A marker of the parser. -/
def qaMarker : List Char := "**Questions and Answers:**".data

/-- The alias heading that `parse_analysis` rewrites to the canonical one. -/
def videoSummaryAlias : List Char := "**Video Summary:**".data

/-- The literal the regex requires before the optional number: `\*\*Question`. -/
def questionHeaderLit : List Char := "**Question".data

/-- The literal `\:\*\*` that closes the question header. -/
def colonStars : List Char := ":**".data

/-- The literal `\*\*Answer:\*\*`. -/
def answerLit : List Char := "**Answer:**".data

/-- The literal `\*\*Context:\*\*`. -/
def contextLit : List Char := "**Context:**".data

/-- The two-star literal used by the lookahead `(?=\n\s*\*\*|$)`. -/
def starStar : List Char := "**".data

/-- All decompositions `s = a ++ lit ++ b`, ordered by position of the
occurrence.  A backtracking regex engine tries the targets of a lazy `.*?`
group in exactly this order. -/
def splits (lit : List Char) : List Char → List (List Char × List Char)
  | [] => if leadsWith lit [] then [([], [])] else []
  | c :: t =>
    (if leadsWith lit (c :: t) then [([], (c :: t).drop lit.length)] else [])
      ++ (splits lit t).map (fun pr => (c :: pr.1, pr.2))

/-- Try `f` on each element in order and keep the first success: the shape of
chronological backtracking over an ordered list of choices. -/
def firstSome : List α → (α → Option β) → Option β
  | [], _ => none
  | x :: l, f => match f x with
    | some b => some b
    | none => firstSome l f

/-- The zero-width lookahead `(?=\n\s*\*\*|$)` evaluated at a suffix of the
subject.  Without `re.MULTILINE`, `$` matches at the very end and also just
before a newline that ends the subject, hence the `['\n']` case. -/
def lookaheadOk : List Char → Bool
  | [] => true
  | ch :: w =>
    if ch = '\n' then
      if w = [] then true
      else leadsWith starStar (w.dropWhile pyIsSpace)
    else false

/-- The lazy scan of `(.+?)\"?(?=\n\s*\*\*|$)` once the group already holds
the reversed characters `acc` (at least one).  At each candidate end the
engine first tries to consume a closing quote (`\"?` is greedy) and then
evaluates the lookahead; otherwise the lazy group grows by one character. -/
def ctxScan : List Char → List Char → Option (List Char × List Char)
  | acc, [] => some (acc.reverse, [])
  | acc, ch :: rest =>
    if ch = '"' ∧ lookaheadOk rest = true then some (acc.reverse, rest)
    else if lookaheadOk (ch :: rest) = true then some (acc.reverse, ch :: rest)
    else ctxScan (ch :: acc) rest

/-- The tail `\s*\"?(.+?)\"?(?=\n\s*\*\*|$)` of the pattern, applied to the
text following `**Context:**`.  `\s*` is greedy, the opening `\"?` prefers to
consume a quote, and `(.+?)` needs at least one character; the only
backtracking that can reach the `\s*` or the opening `\"?` happens when no
character is left for the group, which yields the two fallback branches. -/
def ctxTail (u : List Char) : Option (List Char × List Char) :=
  match u.dropWhile pyIsSpace with
  | [] =>
    match u.reverse with
    | [] => none
    | c :: _ => some ([c], [])
  | m0 :: m1 =>
    if m0 = '"' then
      match m1 with
      | [] => some (['"'], [])
      | ch :: rest => ctxScan [ch] rest
    else ctxScan [m0] m1

/-- The segment `\s*(.*?)\s*\*\*Context:\*\*` plus the context tail: for each
occurrence of `**Context:**` in document order, capture the (lazily minimal)
second group and run the context tail, backtracking to the next occurrence on
failure.  The greedy `\s*` on both sides of the lazy group means the captured
group is the text up to the occurrence with surrounding whitespace shed,
i.e. `stripTrailing` of the part before the occurrence (the part after the
leading whitespace run). -/
def tryContext (r1 : List Char) : Option (List Char × List Char × List Char) :=
  firstSome (splits contextLit (r1.dropWhile pyIsSpace)) (fun pr =>
    (ctxTail pr.2).map (fun g3r => (stripTrailing pr.1, g3r.1, g3r.2)))

/-- The segment `\s*(.*?)\s*\*\*Answer:\*\*` plus everything after it,
with the same backtracking structure as `tryContext`. -/
def tryAnswer (r0 : List Char) : Option (List Char × List Char × List Char × List Char) :=
  firstSome (splits answerLit (r0.dropWhile pyIsSpace)) (fun pr =>
    (tryContext pr.2).map (fun t => (stripTrailing pr.1, t.1, t.2.1, t.2.2)))

/-- The header `\*\*Question(?:\s*\d+)?\:\*\*` after the literal
`**Question` has been consumed.  The optional group is greedy; inside it
`\s*` and `\d+` can only succeed on the maximal whitespace and digit runs
(shorter runs put a whitespace or digit character where `\d` or `:` is
required), and the empty alternative of the optional group demands `:**`
immediately — the two alternatives can never both match. -/
def afterQuestionHeader (s : List Char) : Option (List Char) :=
  if s.dropWhile pyIsSpace ≠ (s.dropWhile pyIsSpace).dropWhile Char.isDigit
      ∧ leadsWith colonStars ((s.dropWhile pyIsSpace).dropWhile Char.isDigit) = true then
    some (((s.dropWhile pyIsSpace).dropWhile Char.isDigit).drop 3)
  else if leadsWith colonStars s = true then some (s.drop 3)
  else none

/-- One attempt of the whole pattern anchored at the start of `s`; returns the
three captured groups and the remainder of the subject after the match. -/
def tryTriple (s : List Char) : Option ((List Char × List Char × List Char) × List Char) :=
  if leadsWith questionHeaderLit s then
    match afterQuestionHeader (s.drop questionHeaderLit.length) with
    | none => none
    | some r =>
      (tryAnswer r).map (fun t => ((t.1, t.2.1, t.2.2.1), t.2.2.2))
  else none

/-- Fuelled worker of `findTriples`: scan left to right, attempt a match at
every position, and continue after the end of each successful (necessarily
non-empty) match, exactly like `re.findall`. -/
def findTriplesF : Nat → List Char → List (List Char × List Char × List Char)
  | _, [] => []
  | 0, _ :: _ => []
  | Nat.succ n, c :: t =>
    match tryTriple (c :: t) with
    | some (g, rest) => g :: findTriplesF n rest
    | none => findTriplesF n t

/-- `re.findall(qa_pattern, qa_text, flags=re.DOTALL)`. -/
def findTriples (s : List Char) : List (List Char × List Char × List Char) :=
  findTriplesF (s.length + 1) s

/-- One extracted Q&A entry (`{"question": ..., "answer": ..., "context": ...}`). -/
structure QAEntry where
  question : List Char
  answer : List Char
  context : List Char
deriving DecidableEq, Repr

/-- The structured record returned by the parser
(`{"summary": ..., "qa": ...}`). -/
structure Analysis where
  summary : List Char
  qa : List QAEntry
deriving DecidableEq, Repr

/-- `parse_analysis` from `pipeline_app.py`, transcribed clause by clause. -/
def parse_analysis (analysis_text0 : List Char) : Analysis :=
  let analysis_text := pyReplace analysis_text0 videoSummaryAlias summaryMarker
  let summary :=
    match pyFind summaryMarker analysis_text with
    | some index_summary =>
      let summary_start := index_summary + summaryMarker.length
      match pyFind qaMarker analysis_text with
      | some index_qa => strip (pySlice analysis_text summary_start index_qa)
      | none => strip (analysis_text.drop summary_start)
    | none => strip analysis_text
  let qa :=
    match pyFind qaMarker analysis_text with
    | some index_qa =>
      let qa_text := strip (analysis_text.drop (index_qa + qaMarker.length))
      (findTriples qa_text).map
        (fun t => QAEntry.mk (strip t.1) (strip t.2.1) (strip t.2.2))
    | none => []
  Analysis.mk summary qa

/-- Result variant attached under the `analysis` key: either the structured
record or `{"error": msg}`. -/
inductive AnalysisOut where
  | ok (a : Analysis)
  | err (msg : List Char)
deriving DecidableEq, Repr

/-- An input video descriptor: the `url` field (absent or present, possibly
empty) and the remaining metadata, opaque to the pipeline. -/
structure Desc (α : Type) where
  url : Option (List Char)
  payload : α
deriving DecidableEq, Repr

/-- The two external collaborators of the per-item pipeline:
`download` models `download_youtube_video` (a local path, or `None`), and
`analyze` models the remote round trip of `process_video` (upload, readiness
polling and agent run), producing the raw response text or raising. -/
structure Env where
  download : List Char → Option (List Char)
  analyze : List Char → Except (List Char) (List Char)

/-- Outbound calls made while processing one descriptor. -/
inductive Event where
  | downloadEv (url : List Char)
  | remoteEv (path : List Char)
deriving DecidableEq, Repr

/-- The error message attached when the download collaborator returns no file. -/
def downloadFailedMsg : List Char := "Download failed".data

/-- The body of the `for video_obj in videos_data` loop for one descriptor:
`none` when the item is skipped (missing or falsy `url`), otherwise the
annotated descriptor; paired with the trace of outbound calls. -/
def processItem (env : Env) (d : Desc α) : Option (Desc α × AnalysisOut) × List Event :=
  match d.url with
  | none => (none, [])
  | some u =>
    if u = [] then (none, [])
    else
      match env.download u with
      | none => (some (d, AnalysisOut.err downloadFailedMsg), [Event.downloadEv u])
      | some p =>
        match env.analyze p with
        | Except.error e => (some (d, AnalysisOut.err e), [Event.downloadEv u, Event.remoteEv p])
        | Except.ok raw =>
          (some (d, AnalysisOut.ok (parse_analysis raw)), [Event.downloadEv u, Event.remoteEv p])

/-- The batch loop of `main`: iterate in order, appending each non-skipped
item's annotated descriptor to `output_data`. -/
def processBatch (env : Env) : List (Desc α) → List (Desc α × AnalysisOut)
  | [] => []
  | d :: rest =>
    match (processItem env d).1 with
    | none => processBatch env rest
    | some e => e :: processBatch env rest

/-- All characters of `W` are whitespace. -/
def allWs (W : List Char) : Prop := ∀ c ∈ W, pyIsSpace c = true

/-- `pat` occurs as a contiguous substring of `s`. -/
def occursIn (pat s : List Char) : Prop := ∃ a b, s = a ++ pat ++ b

/-- The canonical rendering of one well-formed Q&A triple with a quoted
context body, as produced by the remote service and matched by the pattern. -/
def renderTriple (q a c : List Char) : List Char :=
  "**Question:** ".data ++ q ++ "\n**Answer:** ".data ++ a
    ++ "\n**Context:** \"".data ++ c ++ "\"".data

/-- The newline-separated continuation of a Q&A segment: one leading line
break before each further triple. -/
def sepTriples : List (List Char × List Char × List Char) → List Char
  | [] => []
  | t :: ts => "\n".data ++ (renderTriple t.1 t.2.1 t.2.2 ++ sepTriples ts)

/-- A Q&A segment made of well-formed triples on consecutive lines. -/
def renderTriples : List (List Char × List Char × List Char) → List Char
  | [] => []
  | t :: ts => renderTriple t.1 t.2.1 t.2.2 ++ sepTriples ts

/-- Hygiene conditions making a (question, answer, context) triple
well-formed for the structural pattern: no bold marker inside a body, no
quote inside the quoted context body, and a non-empty context body (the
pattern requires at least one context character). -/
def tripleOK (t : List Char × List Char × List Char) : Prop :=
  '*' ∉ t.1 ∧ '*' ∉ t.2.1 ∧ '*' ∉ t.2.2 ∧ '"' ∉ t.2.2 ∧ t.2.2 ≠ []

/-- Apply Python `str.strip` to all three components of a raw captured
triple, exactly as the loop over `re.findall` results does. -/
def stripT (t : List Char × List Char × List Char) : List Char × List Char × List Char :=
  (strip t.1, strip t.2.1, strip t.2.2)

/-- A concrete environment for the three-descriptor scenario: every download
succeeds (echoing the url as the local path) and the remote call raises
exactly on the second item's file. -/
def env3 : Env where
  download := fun u => some u
  analyze := fun p =>
    if p = "u2".data then Except.error "boom".data
    else Except.ok "**Summary:** ok".data

/-- First scenario descriptor. -/
def d31 : Desc Nat := Desc.mk (some "u1".data) 1

/-- Second scenario descriptor (its remote call raises). -/
def d32 : Desc Nat := Desc.mk (some "u2".data) 2

/-- Third scenario descriptor. -/
def d33 : Desc Nat := Desc.mk (some "u3".data) 3

/-! ### Basic facts about `leadsWith`, `dropWhile` and the strip functions -/

theorem leadsWith_iff : ∀ (p s : List Char), leadsWith p s = true ↔ ∃ t, s = p ++ t := by
  intro p
  induction p with
  | nil =>
    intro s
    constructor
    · intro _; exact ⟨s, rfl⟩
    · intro _; rfl
  | cons x ps ih =>
    intro s
    cases s with
    | nil =>
      simp [leadsWith]
    | cons c cs =>
      constructor
      · intro h
        rw [leadsWith, Bool.and_eq_true, beq_iff_eq] at h
        obtain ⟨rfl, h2⟩ := h
        obtain ⟨t, rfl⟩ := (ih cs).1 h2
        exact ⟨t, rfl⟩
      · rintro ⟨t, ht⟩
        rw [List.cons_append] at ht
        simp only [List.cons.injEq] at ht
        obtain ⟨rfl, rfl⟩ := ht
        rw [leadsWith, Bool.and_eq_true, beq_iff_eq]
        exact ⟨rfl, (ih _).2 ⟨t, rfl⟩⟩

theorem leadsWith_append_self (p t : List Char) : leadsWith p (p ++ t) = true :=
  (leadsWith_iff p (p ++ t)).2 ⟨t, rfl⟩

theorem leadsWith_head {x : Char} {p s : List Char} (h : leadsWith (x :: p) s = true) :
    ∃ t, s = x :: (p ++ t) := by
  obtain ⟨t, rfl⟩ := (leadsWith_iff _ _).1 h
  exact ⟨t, rfl⟩

theorem leadsWith_nil_false {x : Char} {p : List Char} : leadsWith (x :: p) [] = false := rfl

theorem mem_of_dropWhile {x : Char} {p : Char → Bool} :
    ∀ {l : List Char}, x ∈ l.dropWhile p → x ∈ l := by
  intro l
  induction l with
  | nil => intro h; simp at h
  | cons c t ih =>
    intro h
    rw [List.dropWhile_cons] at h
    by_cases hc : p c = true
    · rw [if_pos hc] at h
      exact List.mem_cons_of_mem _ (ih h)
    · rw [if_neg hc] at h
      exact h

theorem dropWhile_append_head_false {p : Char → Bool} {y : Char} (ys X : List Char)
    (hy : p y = false) :
    (X ++ y :: ys).dropWhile p = X.dropWhile p ++ y :: ys := by
  rw [List.dropWhile_append]
  by_cases h : (X.dropWhile p).isEmpty = true
  · rw [if_pos h]
    simp only [List.isEmpty_iff] at h
    rw [h, List.nil_append, List.dropWhile_cons, hy]
    simp
  · rw [if_neg h]

theorem dropWhile_allws {p : Char → Bool} :
    ∀ {W : List Char}, (∀ c ∈ W, p c = true) → W.dropWhile p = [] := by
  intro W
  induction W with
  | nil => intro _; rfl
  | cons c t ih =>
    intro h
    rw [List.dropWhile_cons, if_pos (h c (List.mem_cons_self c t))]
    exact ih (fun x hx => h x (List.mem_cons_of_mem _ hx))

theorem dropWhile_append_allws {p : Char → Bool} {W : List Char} (Z : List Char)
    (hW : ∀ c ∈ W, p c = true) :
    (W ++ Z).dropWhile p = Z.dropWhile p := by
  rw [List.dropWhile_append, dropWhile_allws hW]
  simp

theorem stripLeading_append_head_false {y : Char} (ys X : List Char)
    (hy : pyIsSpace y = false) :
    stripLeading (X ++ y :: ys) = stripLeading X ++ y :: ys :=
  dropWhile_append_head_false ys X hy

theorem stripLeading_allws_append {W : List Char} (Z : List Char) (hW : allWs W) :
    stripLeading (W ++ Z) = stripLeading Z :=
  dropWhile_append_allws Z hW

theorem stripTrailing_append_allws {W : List Char} (X : List Char) (hW : allWs W) :
    stripTrailing (X ++ W) = stripTrailing X := by
  unfold stripTrailing
  rw [List.reverse_append, dropWhile_append_allws X.reverse (fun c hc => hW c (by
    rw [List.mem_reverse] at hc; exact hc))]

theorem stripTrailing_append_last_false {y : Char} (X : List Char)
    (hy : pyIsSpace y = false) :
    stripTrailing (X ++ [y]) = X ++ [y] := by
  unfold stripTrailing
  rw [List.reverse_append]
  simp only [List.reverse_cons, List.reverse_nil, List.nil_append, List.singleton_append,
    List.dropWhile_cons, hy]
  simp

theorem stripTrailing_decomp (X : List Char) :
    ∃ W, allWs W ∧ X = stripTrailing X ++ W := by
  refine ⟨(X.reverse.takeWhile pyIsSpace).reverse, ?_, ?_⟩
  · intro c hc
    rw [List.mem_reverse] at hc
    exact List.mem_takeWhile_imp hc
  · unfold stripTrailing
    rw [← List.reverse_append, List.takeWhile_append_dropWhile, List.reverse_reverse]

theorem stripLeading_decomp (X : List Char) :
    ∃ W, allWs W ∧ X = W ++ stripLeading X := by
  refine ⟨X.takeWhile pyIsSpace, ?_, ?_⟩
  · intro c hc
    exact List.mem_takeWhile_imp hc
  · unfold stripLeading
    rw [List.takeWhile_append_dropWhile]

theorem strip_allws_left {W : List Char} (A : List Char) (hW : allWs W) :
    strip (W ++ A) = strip A := by
  unfold strip
  rw [stripLeading_allws_append A hW]

theorem strip_allws_right {W : List Char} (A : List Char) (hW : allWs W) :
    strip (A ++ W) = strip A := by
  unfold strip
  obtain ⟨WA, hWA, hA⟩ := stripLeading_decomp A
  have hsplit : A ++ W = WA ++ (stripLeading A ++ W) := by
    conv_lhs => rw [hA]
    rw [List.append_assoc]
  rw [hsplit, stripLeading_allws_append _ hWA]
  cases hsl : stripLeading A with
  | nil =>
    rw [List.nil_append]
    rw [show stripLeading W = [] from dropWhile_allws hW]
  | cons y ys =>
    have hyf : pyIsSpace y = false := by
      have := List.head?_dropWhile_not pyIsSpace A
      unfold stripLeading at hsl
      rw [hsl] at this
      simpa using this
    have h1 : stripLeading ((y :: ys) ++ W) = (y :: ys) ++ W := by
      unfold stripLeading
      rw [List.cons_append, List.dropWhile_cons, hyf]
      simp
    rw [h1]
    exact stripTrailing_append_allws _ hW

theorem strip_stripTrailing (X : List Char) : strip (stripTrailing X) = strip X := by
  obtain ⟨W, hW, hX⟩ := stripTrailing_decomp X
  conv_rhs => rw [hX]
  rw [strip_allws_right _ hW]

theorem strip_stripLeading (X : List Char) : strip (stripLeading X) = strip X := by
  obtain ⟨W, hW, hX⟩ := stripLeading_decomp X
  conv_rhs => rw [hX]
  rw [strip_allws_left _ hW]

theorem strip_sandwich {W1 W2 : List Char} (A : List Char) (h1 : allWs W1) (h2 : allWs W2) :
    strip (W1 ++ A ++ W2) = strip A := by
  rw [List.append_assoc, strip_allws_left _ h1, strip_allws_right _ h2]

theorem allWs_single {c : Char} (h : pyIsSpace c = true) : allWs [c] := by
  intro x hx
  rw [List.mem_singleton] at hx
  rw [hx]
  exact h

/-! ### `occursIn`, `pyFind`, `splits`, `firstSome` -/

theorem occursIn_cons {pat t : List Char} (c : Char) (h : occursIn pat t) :
    occursIn pat (c :: t) := by
  obtain ⟨a, b, rfl⟩ := h
  exact ⟨c :: a, b, rfl⟩

theorem occursIn_of_leadsWith {pat s : List Char} (h : leadsWith pat s = true) :
    occursIn pat s := by
  obtain ⟨t, rfl⟩ := (leadsWith_iff _ _).1 h
  exact ⟨[], t, rfl⟩

theorem pyFindAux_isSome_of_occ {pat : List Char} :
    ∀ (s : List Char) (i : Nat), occursIn pat s → (pyFindAux pat s i).isSome = true := by
  intro s
  induction s with
  | nil =>
    intro i h
    obtain ⟨a, b, hab⟩ := h
    have : pat = [] := by
      cases a <;> cases pat <;> simp_all
    rw [pyFindAux, this]
    simp [leadsWith]
  | cons c t ih =>
    intro i h
    rw [pyFindAux]
    by_cases hl : leadsWith pat (c :: t) = true
    · rw [if_pos hl]
      rfl
    · rw [if_neg hl]
      obtain ⟨a, b, hab⟩ := h
      cases a with
      | nil =>
        exfalso
        apply hl
        rw [List.nil_append] at hab
        rw [hab]
        exact leadsWith_append_self pat b
      | cons x a' =>
        apply ih (i + 1)
        rw [List.cons_append, List.cons_append] at hab
        simp only [List.cons.injEq] at hab
        exact ⟨a', b, by rw [hab.2, List.append_assoc]⟩

theorem pyFind_none_not_occ {pat s : List Char} (h : pyFind pat s = none) :
    ¬ occursIn pat s := by
  intro hocc
  have := pyFindAux_isSome_of_occ s 0 hocc
  rw [pyFind] at h
  rw [h] at this
  simp at this

theorem pyFindAux_some_occ {pat : List Char} :
    ∀ (s : List Char) (i j : Nat), pyFindAux pat s i = some j → occursIn pat s := by
  intro s
  induction s with
  | nil =>
    intro i j h
    rw [pyFindAux] at h
    by_cases hl : leadsWith pat [] = true
    · exact occursIn_of_leadsWith hl
    · rw [if_neg hl] at h
      cases h
  | cons c t ih =>
    intro i j h
    rw [pyFindAux] at h
    by_cases hl : leadsWith pat (c :: t) = true
    · exact occursIn_of_leadsWith hl
    · rw [if_neg hl] at h
      exact occursIn_cons c (ih (i + 1) j h)

theorem pyFind_some_occ {pat s : List Char} {j : Nat} (h : pyFind pat s = some j) :
    occursIn pat s :=
  pyFindAux_some_occ s 0 j h

theorem pyFind_of_leadsWith {pat s : List Char} (h : leadsWith pat s = true) :
    pyFind pat s = some 0 := by
  rw [pyFind]
  cases s with
  | nil => rw [pyFindAux, if_pos h]
  | cons c t => rw [pyFindAux, if_pos h]

theorem firstSome_cons_some {α β : Type} {f : α → Option β} {x : α} {l : List α} {b : β}
    (h : f x = some b) : firstSome (x :: l) f = some b := by
  rw [firstSome, h]

theorem splits_head (lit X R : List Char) (hne : lit ≠ [])
    (hX : ∀ j, j < X.length → leadsWith lit ((X ++ (lit ++ R)).drop j) = false) :
    ∃ l, splits lit (X ++ (lit ++ R)) = (X, R) :: l := by
  induction X with
  | nil =>
    cases lit with
    | nil => exact absurd rfl hne
    | cons x p =>
      refine ⟨(splits (x :: p) (p ++ R)).map (fun pr => (x :: pr.1, pr.2)), ?_⟩
      rw [List.nil_append, List.cons_append, splits,
        if_pos (by rw [← List.cons_append]; exact leadsWith_append_self (x :: p) R)]
      have hdrop : ((x :: (p ++ R)).drop (x :: p).length) = R := by
        rw [List.length_cons, List.drop_succ_cons]
        exact List.drop_left p R
      rw [hdrop]
      rfl
  | cons c X' ih =>
    have h0 : leadsWith lit (c :: (X' ++ (lit ++ R))) = false := by
      have := hX 0 (by simp)
      rwa [List.drop_zero, List.cons_append] at this
    have hX' : ∀ j, j < X'.length → leadsWith lit ((X' ++ (lit ++ R)).drop j) = false := by
      intro j hj
      have := hX (j + 1) (by simp; omega)
      rwa [List.cons_append, List.drop_succ_cons] at this
    obtain ⟨l, hl⟩ := ih hX'
    refine ⟨l.map (fun pr => (c :: pr.1, pr.2)), ?_⟩
    rw [List.cons_append, splits, if_neg (by rw [h0]; simp), hl]
    rfl

theorem noEarly_star {lit2 Y : List Char} :
    ∀ {X : List Char}, '*' ∉ X →
      ∀ j, j < X.length → leadsWith ('*' :: lit2) ((X ++ Y).drop j) = false := by
  intro X
  induction X with
  | nil =>
    intro _ j hj
    simp at hj
  | cons c X' ih =>
    intro hX j hj
    cases j with
    | zero =>
      rw [List.drop_zero, List.cons_append, leadsWith]
      have hc : ('*' == c) = false := by
        rw [beq_eq_false_iff_ne]
        intro h
        exact hX (by rw [h]; exact List.mem_cons_self c X')
      rw [hc, Bool.false_and]
    | succ j' =>
      rw [List.cons_append, List.drop_succ_cons]
      exact ih (fun h => hX (List.mem_cons_of_mem _ h)) j'
        (by rw [List.length_cons] at hj; omega)

theorem leadsWith_append_long :
    ∀ (p q b : List Char), p.length ≤ q.length → leadsWith p (q ++ b) = leadsWith p q := by
  intro p
  induction p with
  | nil => intro q b _; rfl
  | cons x p' ih =>
    intro q b hq
    cases q with
    | nil => simp at hq
    | cons y q' =>
      rw [List.cons_append, leadsWith, leadsWith, ih q' b (by simp at hq; omega)]

theorem leadsWith_append_split :
    ∀ (q p b : List Char), q.length ≤ p.length →
      leadsWith p (q ++ b) = (leadsWith q p && leadsWith (p.drop q.length) b) := by
  intro q
  induction q with
  | nil => intro p b _; simp [leadsWith]
  | cons x q' ih =>
    intro p b hp
    cases p with
    | nil => simp at hp
    | cons y p' =>
      rw [List.cons_append, leadsWith, leadsWith, ih p' b (by simp at hp; omega),
        List.length_cons, List.drop_succ_cons, ← Bool.and_assoc]
      by_cases hxy : x = y
      · subst hxy; rfl
      · rw [beq_eq_false_iff_ne.2 hxy, beq_eq_false_iff_ne.2 (Ne.symm hxy)]

/-! ### Facts about `pyReplace` -/

theorem pyReplaceF_no_occ {pat rep : List Char} :
    ∀ (s : List Char) (n : Nat), s.length ≤ n → ¬ occursIn pat s →
      pyReplaceF pat rep n s = s := by
  intro s
  induction s with
  | nil => intro n _ _; cases n <;> rfl
  | cons c t ih =>
    intro n hn hocc
    cases n with
    | zero => simp at hn
    | succ m =>
      rw [pyReplaceF]
      have hcond : ¬ (pat ≠ [] ∧ leadsWith pat (c :: t) = true) := by
        rintro ⟨-, h⟩
        exact hocc (occursIn_of_leadsWith h)
      rw [if_neg hcond,
        ih m (by rw [List.length_cons] at hn; omega) (fun h => hocc (occursIn_cons c h))]

theorem pyReplace_no_occ {pat : List Char} (s rep : List Char) (h : ¬ occursIn pat s) :
    pyReplace s pat rep = s :=
  pyReplaceF_no_occ s s.length (Nat.le_refl _) h

theorem pyReplaceF_occ_rep {pat rep : List Char} (hne : pat ≠ []) :
    ∀ (s : List Char) (n : Nat), s.length ≤ n → occursIn pat s →
      occursIn rep (pyReplaceF pat rep n s) := by
  intro s
  induction s with
  | nil =>
    intro n _ hocc
    obtain ⟨a, b, hab⟩ := hocc
    have h2 : a ++ (pat ++ b) = [] := by rw [← List.append_assoc]; exact hab.symm
    rw [List.append_eq_nil] at h2
    exact absurd (List.append_eq_nil.1 h2.2).1 hne
  | cons c t ih =>
    intro n hn hocc
    cases n with
    | zero => simp at hn
    | succ m =>
      rw [pyReplaceF]
      by_cases hl : leadsWith pat (c :: t) = true
      · rw [if_pos ⟨hne, hl⟩]
        exact ⟨[], _, rfl⟩
      · rw [if_neg (by rintro ⟨-, h⟩; exact hl h)]
        refine occursIn_cons c (ih m (by rw [List.length_cons] at hn; omega) ?_)
        obtain ⟨a, b, hab⟩ := hocc
        cases a with
        | nil =>
          exfalso
          apply hl
          rw [List.nil_append] at hab
          rw [hab]
          exact leadsWith_append_self pat b
        | cons x a' =>
          rw [List.cons_append, List.cons_append] at hab
          simp only [List.cons.injEq] at hab
          exact ⟨a', b, by rw [hab.2, List.append_assoc]⟩

theorem pyReplace_occ_rep {pat : List Char} (s rep : List Char) (hne : pat ≠ [])
    (h : occursIn pat s) : occursIn rep (pyReplace s pat rep) :=
  pyReplaceF_occ_rep hne s s.length (Nat.le_refl _) h

theorem pyReplaceF_zero {pat rep : List Char} (s : List Char) :
    pyReplaceF pat rep 0 s = s := by
  cases s <;> rfl

theorem pyReplaceF_scan {pat rep : List Char} :
    ∀ (X Y : List Char) (n : Nat),
      (∀ j, j < X.length → leadsWith pat ((X ++ Y).drop j) = false) →
      pyReplaceF pat rep n (X ++ Y) = X ++ pyReplaceF pat rep (n - X.length) Y := by
  intro X
  induction X with
  | nil => intro Y n _; simp
  | cons c X' ih =>
    intro Y n hX
    cases n with
    | zero =>
      rw [List.cons_append, pyReplaceF_zero, Nat.zero_sub, pyReplaceF_zero, List.cons_append]
    | succ m =>
      rw [List.cons_append, pyReplaceF]
      have h0 : leadsWith pat (c :: (X' ++ Y)) = false := by
        have := hX 0 (by simp)
        rwa [List.drop_zero, List.cons_append] at this
      rw [if_neg (by rintro ⟨-, h⟩; rw [h0] at h; cases h)]
      have hX' : ∀ j, j < X'.length → leadsWith pat ((X' ++ Y).drop j) = false := by
        intro j hj
        have := hX (j + 1) (by rw [List.length_cons]; omega)
        rwa [List.cons_append, List.drop_succ_cons] at this
      rw [ih Y m hX', List.cons_append]
      simp only [List.length_cons, Nat.succ_sub_succ, Nat.add_sub_add_right]

theorem pyReplaceF_match {pat rep : List Char} {x : Char} {p : List Char} (hpat : pat = x :: p)
    (B : List Char) (m : Nat) :
    pyReplaceF pat rep (m + 1) (pat ++ B) = rep ++ pyReplaceF pat rep m B := by
  subst hpat
  rw [List.cons_append, pyReplaceF,
    if_pos ⟨List.cons_ne_nil x p, by rw [← List.cons_append]; exact leadsWith_append_self _ B⟩]
  have hdrop : (x :: (p ++ B)).drop (x :: p).length = B := by
    rw [List.length_cons, List.drop_succ_cons]
    exact List.drop_left p B
  rw [hdrop]

theorem alias_cons : videoSummaryAlias = '*' :: "*Video Summary:**".data := by decide

theorem normalize_alias_side {a b : List Char} (ha : '*' ∉ a)
    (hb : ¬ occursIn videoSummaryAlias b) :
    pyReplace (a ++ (videoSummaryAlias ++ b)) videoSummaryAlias summaryMarker
      = a ++ (summaryMarker ++ b) := by
  rw [pyReplace]
  rw [pyReplaceF_scan a (videoSummaryAlias ++ b) _ (by
    intro j hj
    rw [alias_cons]
    exact noEarly_star ha j hj)]
  have hlen : (a ++ (videoSummaryAlias ++ b)).length - a.length
      = (17 + b.length) + 1 := by
    rw [List.length_append, List.length_append,
      show videoSummaryAlias.length = 18 from by decide]
    omega
  rw [hlen, pyReplaceF_match alias_cons b (17 + b.length),
    pyReplaceF_no_occ b (17 + b.length) (by omega) hb]

theorem normalize_canonical_side {a b : List Char} (ha : '*' ∉ a)
    (hb : ¬ occursIn videoSummaryAlias b)
    (hb1 : leadsWith ("Video Summary:**".data) b = false)
    (hb2 : leadsWith ("*Video Summary:**".data) b = false) :
    pyReplace (a ++ (summaryMarker ++ b)) videoSummaryAlias summaryMarker
      = a ++ (summaryMarker ++ b) := by
  have hcond : ∀ j, j < (a ++ summaryMarker).length →
      leadsWith videoSummaryAlias (((a ++ summaryMarker) ++ b).drop j) = false := by
    intro j hj
    rw [List.length_append] at hj
    by_cases hja : j < a.length
    · rw [List.append_assoc, alias_cons]
      exact noEarly_star ha j hja
    · push_neg at hja
      obtain ⟨i, rfl⟩ : ∃ i, j = a.length + i := ⟨j - a.length, by omega⟩
      have hi : i < 12 := by
        have hsm : summaryMarker.length = 12 := by decide
        omega
      rw [List.append_assoc, ← List.drop_drop, List.drop_left]
      interval_cases i
      · rw [List.drop_append_of_le_length (by decide),
          leadsWith_append_split _ _ _ (by decide),
          show leadsWith (summaryMarker.drop 0) videoSummaryAlias = false from by decide,
          Bool.false_and]
      · rw [List.drop_append_of_le_length (by decide),
          leadsWith_append_split _ _ _ (by decide),
          show leadsWith (summaryMarker.drop 1) videoSummaryAlias = false from by decide,
          Bool.false_and]
      · rw [List.drop_append_of_le_length (by decide),
          leadsWith_append_split _ _ _ (by decide),
          show leadsWith (summaryMarker.drop 2) videoSummaryAlias = false from by decide,
          Bool.false_and]
      · rw [List.drop_append_of_le_length (by decide),
          leadsWith_append_split _ _ _ (by decide),
          show leadsWith (summaryMarker.drop 3) videoSummaryAlias = false from by decide,
          Bool.false_and]
      · rw [List.drop_append_of_le_length (by decide),
          leadsWith_append_split _ _ _ (by decide),
          show leadsWith (summaryMarker.drop 4) videoSummaryAlias = false from by decide,
          Bool.false_and]
      · rw [List.drop_append_of_le_length (by decide),
          leadsWith_append_split _ _ _ (by decide),
          show leadsWith (summaryMarker.drop 5) videoSummaryAlias = false from by decide,
          Bool.false_and]
      · rw [List.drop_append_of_le_length (by decide),
          leadsWith_append_split _ _ _ (by decide),
          show leadsWith (summaryMarker.drop 6) videoSummaryAlias = false from by decide,
          Bool.false_and]
      · rw [List.drop_append_of_le_length (by decide),
          leadsWith_append_split _ _ _ (by decide),
          show leadsWith (summaryMarker.drop 7) videoSummaryAlias = false from by decide,
          Bool.false_and]
      · rw [List.drop_append_of_le_length (by decide),
          leadsWith_append_split _ _ _ (by decide),
          show leadsWith (summaryMarker.drop 8) videoSummaryAlias = false from by decide,
          Bool.false_and]
      · rw [List.drop_append_of_le_length (by decide),
          leadsWith_append_split _ _ _ (by decide),
          show leadsWith (summaryMarker.drop 9) videoSummaryAlias = false from by decide,
          Bool.false_and]
      · rw [List.drop_append_of_le_length (by decide),
          leadsWith_append_split _ _ _ (by decide),
          show leadsWith (summaryMarker.drop 10) videoSummaryAlias = true from by decide,
          Bool.true_and,
          show videoSummaryAlias.drop (summaryMarker.drop 10).length
              = "Video Summary:**".data from by decide]
        exact hb1
      · rw [List.drop_append_of_le_length (by decide),
          leadsWith_append_split _ _ _ (by decide),
          show leadsWith (summaryMarker.drop 11) videoSummaryAlias = true from by decide,
          Bool.true_and,
          show videoSummaryAlias.drop (summaryMarker.drop 11).length
              = "*Video Summary:**".data from by decide]
        exact hb2
  rw [pyReplace, ← List.append_assoc,
    pyReplaceF_scan (a ++ summaryMarker) b _ hcond,
    pyReplaceF_no_occ b _ (by rw [List.length_append, List.length_append]; omega) hb,
    List.append_assoc]

/-- `parse_analysis` only depends on the input through the alias
normalization step. -/
theorem parse_analysis_normalize_congr {s t : List Char}
    (h : pyReplace s videoSummaryAlias summaryMarker
        = pyReplace t videoSummaryAlias summaryMarker) :
    parse_analysis s = parse_analysis t := by
  unfold parse_analysis
  rw [h]

/-! ### Claims C1, C6, C7 -/

/-- C1: for every string input, including the empty string, `parse_analysis`
terminates normally (it is a total function of this embedding, whose only
primitives are themselves total) and returns a record whose `summary` is a
(possibly empty) string and whose `qa` is an ordered (possibly empty)
sequence; no failure value or exception path exists in the definition. -/
theorem C1_parser_total (s : List Char) :
    ∃ (summary : List Char) (qa : List QAEntry),
      parse_analysis s = Analysis.mk summary qa :=
  ⟨(parse_analysis s).summary, (parse_analysis s).qa, rfl⟩

/-- C6: if the normalized input contains neither the canonical summary marker
nor the canonical Q&A marker, the parser returns the whole input trimmed as
the summary and an empty Q&A sequence.  (Absence of the summary marker after
normalization forces the alias to be absent as well, so the normalization
step leaves the input unchanged.) -/
theorem C6_no_markers (s : List Char)
    (hsm : pyFind summaryMarker (pyReplace s videoSummaryAlias summaryMarker) = none)
    (hqm : pyFind qaMarker (pyReplace s videoSummaryAlias summaryMarker) = none) :
    parse_analysis s = Analysis.mk (strip s) [] := by
  have hnal : ¬ occursIn videoSummaryAlias s := by
    intro h
    exact pyFind_none_not_occ hsm
      (pyReplace_occ_rep s summaryMarker (by decide) h)
  have hid : pyReplace s videoSummaryAlias summaryMarker = s := pyReplace_no_occ s _ hnal
  rw [hid] at hsm hqm
  unfold parse_analysis
  rw [hid]
  simp only [hsm, hqm]

/-- Witness for C6 at a concrete marker-free input. -/
theorem C6_no_markers_w :
    pyFind summaryMarker (pyReplace "  hello world ".data videoSummaryAlias summaryMarker) = none
    ∧ pyFind qaMarker (pyReplace "  hello world ".data videoSummaryAlias summaryMarker) = none
    ∧ parse_analysis "  hello world ".data = Analysis.mk "hello world".data [] := by
  refine ⟨by decide, by decide, ?_⟩
  rw [C6_no_markers _ (by decide) (by decide)]
  decide

/-- C7: an input that uses the alias heading `**Video Summary:**` in place of
the canonical `**Summary:**` heading yields the same summary as the
otherwise-identical input with the canonical heading.  The side conditions
say that the surrounding text provides no other (possibly overlapping)
occurrence of the alias, so that "in place of" is well defined. -/
theorem C7_alias_heading (a b : List Char) (ha : '*' ∉ a)
    (hb : pyFind videoSummaryAlias b = none)
    (hb1 : leadsWith ("Video Summary:**".data) b = false)
    (hb2 : leadsWith ("*Video Summary:**".data) b = false) :
    (parse_analysis (a ++ (videoSummaryAlias ++ b))).summary
      = (parse_analysis (a ++ (summaryMarker ++ b))).summary := by
  have hnocc := pyFind_none_not_occ hb
  rw [parse_analysis_normalize_congr
    ((normalize_alias_side ha hnocc).trans (normalize_canonical_side ha hnocc hb1 hb2).symm)]

/-- Witness for C7 at a concrete input with a Q&A section after the heading. -/
theorem C7_alias_heading_w :
    '*' ∉ "Intro.\n".data
    ∧ pyFind videoSummaryAlias " The summary.\n**Questions and Answers:**\nrest".data = none
    ∧ leadsWith ("Video Summary:**".data) " The summary.\n**Questions and Answers:**\nrest".data
        = false
    ∧ leadsWith ("*Video Summary:**".data) " The summary.\n**Questions and Answers:**\nrest".data
        = false
    ∧ (parse_analysis ("Intro.\n".data
        ++ (videoSummaryAlias ++ " The summary.\n**Questions and Answers:**\nrest".data))).summary
      = (parse_analysis ("Intro.\n".data
        ++ (summaryMarker ++ " The summary.\n**Questions and Answers:**\nrest".data))).summary :=
  ⟨by decide, by decide, by decide, by decide,
    C7_alias_heading _ _ (by decide) (by decide) (by decide) (by decide)⟩

/-! ### Batch orchestration: claims C2, C8, C9 -/

theorem processBatch_append {α : Type} (env : Env) (l1 l2 : List (Desc α)) :
    processBatch env (l1 ++ l2) = processBatch env l1 ++ processBatch env l2 := by
  induction l1 with
  | nil => rfl
  | cons d t ih =>
    show processBatch env (d :: (t ++ l2)) = processBatch env (d :: t) ++ processBatch env l2
    rw [processBatch, processBatch]
    cases hpi : (processItem env d).1 with
    | none => exact ih
    | some e => rw [ih, List.cons_append]

theorem processItem_fst_some {α : Type} (env : Env) (d : Desc α)
    {y : Desc α × AnalysisOut} (h : (processItem env d).1 = some y) : y.1 = d := by
  cases hu : d.url with
  | none =>
    rw [processItem, hu] at h
    simp at h
  | some u =>
    rw [processItem, hu] at h
    by_cases hue : u = []
    · simp [hue] at h
    · cases hd : env.download u with
      | none =>
        simp only [hue, if_neg, hd] at h
        simp at h
        rw [← h]
      | some p =>
        cases ha : env.analyze p with
        | error e2 =>
          simp only [hue, if_neg, hd, ha] at h
          simp at h
          rw [← h]
        | ok raw =>
          simp only [hue, if_neg, hd, ha] at h
          simp at h
          rw [← h]

theorem processBatch_mem {α : Type} (env : Env) :
    ∀ (l : List (Desc α)), ∀ e ∈ processBatch env l, ∃ d0 ∈ l, e.1 = d0 := by
  intro l
  induction l with
  | nil => intro e he; cases he
  | cons d t ih =>
    intro e he
    cases hpi : (processItem env d).1 with
    | none =>
      simp only [processBatch, hpi] at he
      obtain ⟨d0, hd0, he0⟩ := ih e he
      exact ⟨d0, List.mem_cons_of_mem _ hd0, he0⟩
    | some y =>
      simp only [processBatch, hpi] at he
      rcases List.mem_cons.1 he with h | h
      · subst h
        exact ⟨d, List.mem_cons_self d t, processItem_fst_some env d hpi⟩
      · obtain ⟨d0, hd0, he0⟩ := ih e h
        exact ⟨d0, List.mem_cons_of_mem _ hd0, he0⟩

/-- C2: per-item isolation and order preservation of the batch loop.  The
first part says the output of any batch splits around any descriptor: each
item is processed independently of all others and results stay in input
order; in particular an exception on item `i` (converted to the error
variant by the per-item handler) does not prevent later items and does not
disturb earlier results.  The second part is the concrete scenario: three
descriptors where the second item's remote call raises produce three entries
in the original order, items 1 and 3 successful, item 2 the error variant. -/
theorem C2_batch_isolation :
    (∀ (α : Type) (env : Env) (l1 l2 : List (Desc α)) (d : Desc α),
      processBatch env (l1 ++ d :: l2)
        = processBatch env l1 ++ processBatch env [d] ++ processBatch env l2)
    ∧ processBatch env3 [d31, d32, d33]
        = [(d31, AnalysisOut.ok (Analysis.mk "ok".data [])),
           (d32, AnalysisOut.err "boom".data),
           (d33, AnalysisOut.ok (Analysis.mk "ok".data []))] := by
  constructor
  · intro α env l1 l2 d
    rw [show l1 ++ d :: l2 = l1 ++ ([d] ++ l2) from rfl, processBatch_append,
      processBatch_append, List.append_assoc]
  · decide

/-- C8: when the url is present and non-empty but acquisition yields no local
file, the item short-circuits: its result is the error variant with message
exactly "Download failed", no remote call is made for it, and the descriptor
still appears (in place) in the batch output. -/
theorem C8_download_failed {α : Type} (env : Env) (d : Desc α) (u : List Char)
    (l1 l2 : List (Desc α))
    (hu : d.url = some u) (hne : u ≠ []) (hdl : env.download u = none) :
    processItem env d = (some (d, AnalysisOut.err downloadFailedMsg), [Event.downloadEv u])
    ∧ (∀ p, Event.remoteEv p ∉ (processItem env d).2)
    ∧ processBatch env (l1 ++ d :: l2)
        = processBatch env l1
            ++ (d, AnalysisOut.err downloadFailedMsg) :: processBatch env l2 := by
  have hitem : processItem env d
      = (some (d, AnalysisOut.err downloadFailedMsg), [Event.downloadEv u]) := by
    simp only [processItem, hu, hdl, if_neg hne]
  refine ⟨hitem, ?_, ?_⟩
  · intro p hp
    rw [hitem] at hp
    simp at hp
  · rw [show l1 ++ d :: l2 = l1 ++ ([d] ++ l2) from rfl, processBatch_append,
      processBatch_append]
    have hsingle : processBatch env [d] = [(d, AnalysisOut.err downloadFailedMsg)] := by
      rw [processBatch, hitem]
      rfl
    rw [hsingle]
    rfl

/-- Witness for C8 at a concrete environment whose download fails. -/
theorem C8_download_failed_w :
    (Desc.mk (some "u1".data) (0 : Nat)).url = some "u1".data
    ∧ "u1".data ≠ []
    ∧ (Env.mk (fun _ => none) (fun _ => Except.error [])).download "u1".data = none
    ∧ processItem (Env.mk (fun _ => none) (fun _ => Except.error []))
        (Desc.mk (some "u1".data) (0 : Nat))
        = (some (Desc.mk (some "u1".data) (0 : Nat), AnalysisOut.err downloadFailedMsg),
           [Event.downloadEv "u1".data]) :=
  ⟨rfl, by decide, rfl,
    (C8_download_failed (Env.mk (fun _ => none) (fun _ => Except.error []))
      (Desc.mk (some "u1".data) (0 : Nat)) "u1".data [] [] rfl (by decide) rfl).1⟩

/-- C9: a descriptor with a missing or empty `url` is entirely absent from
the output (skipped, not annotated), while every emitted entry carries its
original descriptor unchanged apart from the added analysis value. -/
theorem C9_no_url_skipped {α : Type} (env : Env) (l1 l2 : List (Desc α)) (d : Desc α)
    (hu : d.url = none ∨ d.url = some []) :
    processBatch env (l1 ++ d :: l2) = processBatch env (l1 ++ l2)
    ∧ ∀ e ∈ processBatch env (l1 ++ l2), ∃ d0 ∈ l1 ++ l2, e.1 = d0 := by
  have hskip : (processItem env d).1 = none := by
    rcases hu with h | h
    · simp [processItem, h]
    · simp [processItem, h]
  constructor
  · rw [show l1 ++ d :: l2 = l1 ++ ([d] ++ l2) from rfl, processBatch_append,
      processBatch_append, processBatch_append]
    have : processBatch env [d] = [] := by
      rw [processBatch, hskip]
      rfl
    rw [this, List.nil_append]
  · exact processBatch_mem env (l1 ++ l2)

/-- Witness for C9: a url-less descriptor between two processed ones. -/
theorem C9_no_url_skipped_w :
    ((Desc.mk none (5 : Nat)).url = none ∨ (Desc.mk none (5 : Nat)).url = some [])
    ∧ processBatch env3 [d31, Desc.mk none 5, d33] = processBatch env3 [d31, d33] :=
  ⟨Or.inl rfl,
    (C9_no_url_skipped env3 [d31] [d33] (Desc.mk none 5) (Or.inl rfl)).1⟩

/-! ### Matcher lemmas: behaviour of the embedded pattern on rendered triples -/

theorem lookaheadOk_cons_ne {x : Char} (v : List Char) (hx : x ≠ '\n') :
    lookaheadOk (x :: v) = false := by
  rw [lookaheadOk, if_neg hx]

theorem leadsWith_star_head_false {lit2 : List Char} {y : Char} (v : List Char)
    (hy : y ≠ '*') : leadsWith ('*' :: lit2) (y :: v) = false := by
  rw [leadsWith, beq_eq_false_iff_ne.2 (Ne.symm hy), Bool.false_and]

theorem ctxScan_through :
    ∀ (cs : List Char) (acc r : List Char), '"' ∉ cs → '*' ∉ cs →
      lookaheadOk r = true →
      ctxScan acc (cs ++ '"' :: r) = some (acc.reverse ++ cs, r) := by
  intro cs
  induction cs with
  | nil =>
    intro acc r _ _ hr
    rw [List.nil_append, ctxScan, if_pos ⟨rfl, hr⟩, List.append_nil]
  | cons x cs' ih =>
    intro acc r hq hs hr
    rw [List.cons_append, ctxScan]
    have hx1 : ¬ (x = '"' ∧ lookaheadOk (cs' ++ '"' :: r) = true) := by
      rintro ⟨rfl, -⟩
      exact hq (List.mem_cons_self _ _)
    rw [if_neg hx1]
    have hx2 : lookaheadOk (x :: (cs' ++ '"' :: r)) = false := by
      by_cases hxn : x = '\n'
      · subst hxn
        rw [lookaheadOk, if_pos rfl, if_neg (by simp)]
        rw [dropWhile_append_head_false _ cs' (by decide)]
        cases hdw : cs'.dropWhile pyIsSpace with
        | nil =>
          rw [List.nil_append, show starStar = '*' :: ['*'] from by decide]
          exact leadsWith_star_head_false _ (by decide)
        | cons y ys =>
          rw [show starStar = '*' :: ['*'] from by decide]
          have hy : y ≠ '*' := by
            intro hcon
            have hmem : y ∈ cs' := mem_of_dropWhile (by rw [hdw]; exact List.mem_cons_self y ys)
            rw [hcon] at hmem
            exact hs (List.mem_cons_of_mem _ hmem)
          exact leadsWith_star_head_false _ hy
      · exact lookaheadOk_cons_ne _ hxn
    rw [hx2, if_neg (by simp)]
    rw [ih (x :: acc) r (fun h => hq (List.mem_cons_of_mem _ h))
      (fun h => hs (List.mem_cons_of_mem _ h)) hr]
    rw [List.reverse_cons, List.append_assoc, List.singleton_append]

theorem ctxTail_render (c r : List Char) (hq : '"' ∉ c) (hs : '*' ∉ c) (hcne : c ≠ [])
    (hr : lookaheadOk r = true) :
    ctxTail (' ' :: '"' :: (c ++ '"' :: r)) = some (c, r) := by
  obtain ⟨ch, cs, rfl⟩ : ∃ ch cs, c = ch :: cs := by
    cases c with
    | nil => exact absurd rfl hcne
    | cons ch cs => exact ⟨ch, cs, rfl⟩
  have hdw : (' ' :: '"' :: ((ch :: cs) ++ '"' :: r)).dropWhile pyIsSpace
      = '"' :: ((ch :: cs) ++ '"' :: r) := by
    rw [List.dropWhile_cons, if_pos (show pyIsSpace ' ' = true from by decide),
      List.dropWhile_cons, if_neg (show ¬ pyIsSpace '"' = true from by decide)]
  rw [ctxTail, hdw, List.cons_append]
  show ctxScan [ch] (cs ++ '"' :: r) = some (ch :: cs, r)
  rw [ctxScan_through cs [ch] r (fun h => hq (List.mem_cons_of_mem _ h))
    (fun h => hs (List.mem_cons_of_mem _ h)) hr]
  rfl

theorem lazyD {lit lit2 : List Char} (hlit : lit = '*' :: lit2)
    (W1 A W2 R : List Char) (hW1 : allWs W1) (hW2 : allWs W2) (hA : '*' ∉ A) :
    ((W1 ++ (A ++ (W2 ++ (lit ++ R)))).dropWhile pyIsSpace
        = ((W1 ++ A ++ W2).dropWhile pyIsSpace) ++ (lit ++ R))
    ∧ (∃ l, splits lit (((W1 ++ A ++ W2).dropWhile pyIsSpace) ++ (lit ++ R))
        = ((W1 ++ A ++ W2).dropWhile pyIsSpace, R) :: l)
    ∧ strip (stripTrailing ((W1 ++ A ++ W2).dropWhile pyIsSpace)) = strip A := by
  subst hlit
  have hstar : '*' ∉ (W1 ++ A ++ W2).dropWhile pyIsSpace := by
    intro hmem
    rcases List.mem_append.1 (mem_of_dropWhile hmem) with h | h
    · rcases List.mem_append.1 h with h1 | h1
      · exact absurd (hW1 _ h1) (by decide)
      · exact hA h1
    · exact absurd (hW2 _ h) (by decide)
  refine ⟨?_, ?_, ?_⟩
  · have hre : W1 ++ (A ++ (W2 ++ (('*' :: lit2) ++ R)))
        = (W1 ++ A ++ W2) ++ ('*' :: (lit2 ++ R)) := by
      simp [List.append_assoc]
    rw [hre, dropWhile_append_head_false _ _ (by decide), List.cons_append]
  · exact splits_head _ _ R (by simp) (fun j hj => noEarly_star hstar j hj)
  · rw [strip_stripTrailing,
      show (W1 ++ A ++ W2).dropWhile pyIsSpace = stripLeading (W1 ++ A ++ W2) from rfl,
      strip_stripLeading]
    exact strip_sandwich A hW1 hW2

theorem tryContext_shape (W1 A W2 R2 : List Char) (hW1 : allWs W1) (hW2 : allWs W2)
    (hA : '*' ∉ A) {g3 rest : List Char} (hct : ctxTail R2 = some (g3, rest)) :
    ∃ g2, tryContext (W1 ++ (A ++ (W2 ++ (contextLit ++ R2)))) = some (g2, g3, rest)
      ∧ strip g2 = strip A := by
  obtain ⟨hdw, ⟨l, hsp⟩, hstrip⟩ :=
    lazyD (show contextLit = '*' :: "*Context:**".data from by decide) W1 A W2 R2 hW1 hW2 hA
  refine ⟨stripTrailing ((W1 ++ A ++ W2).dropWhile pyIsSpace), ?_, hstrip⟩
  rw [tryContext, hdw, hsp]
  exact firstSome_cons_some (by rw [hct]; rfl)

theorem tryAnswer_shape (W1 A W2 R1 : List Char) (hW1 : allWs W1) (hW2 : allWs W2)
    (hA : '*' ∉ A) {g2 g3 rest : List Char}
    (hct : tryContext R1 = some (g2, g3, rest)) :
    ∃ g1, tryAnswer (W1 ++ (A ++ (W2 ++ (answerLit ++ R1)))) = some (g1, g2, g3, rest)
      ∧ strip g1 = strip A := by
  obtain ⟨hdw, ⟨l, hsp⟩, hstrip⟩ :=
    lazyD (show answerLit = '*' :: "*Answer:**".data from by decide) W1 A W2 R1 hW1 hW2 hA
  refine ⟨stripTrailing ((W1 ++ A ++ W2).dropWhile pyIsSpace), ?_, hstrip⟩
  rw [tryAnswer, hdw, hsp]
  exact firstSome_cons_some (by rw [hct]; rfl)

theorem afterQH_colon (v : List Char) :
    afterQuestionHeader (':' :: '*' :: '*' :: v) = some v := by
  rw [afterQuestionHeader]
  have h1 : (':' :: '*' :: '*' :: v).dropWhile pyIsSpace = ':' :: '*' :: '*' :: v := by
    rw [List.dropWhile_cons, if_neg (by decide)]
  have h2 : (':' :: '*' :: '*' :: v).dropWhile Char.isDigit = ':' :: '*' :: '*' :: v := by
    rw [List.dropWhile_cons, if_neg (by decide)]
  rw [h1, h2, if_neg (by rintro ⟨h, -⟩; exact h rfl),
    if_pos (by
      rw [show colonStars = ':' :: '*' :: '*' :: ([] : List Char) from by decide]
      simp [leadsWith])]
  rfl

theorem tryTriple_plain_header (Z : List Char) :
    tryTriple ("**Question:** ".data ++ Z)
      = (tryAnswer (' ' :: Z)).map (fun t => ((t.1, t.2.1, t.2.2.1), t.2.2.2)) := by
  have hdec : "**Question:** ".data ++ Z
      = questionHeaderLit ++ ((':' :: '*' :: '*' :: [' ']) ++ Z) := by
    rw [show "**Question:** ".data
        = questionHeaderLit ++ (':' :: '*' :: '*' :: [' ']) from by decide,
      List.append_assoc]
  rw [hdec, tryTriple, if_pos (leadsWith_append_self _ _), List.drop_left,
    show (':' :: '*' :: '*' :: [' ']) ++ Z = ':' :: '*' :: '*' :: (' ' :: Z) from by simp,
    afterQH_colon]

/-- Decomposition of a rendered triple (plus trailing text) into the shapes
consumed by the matcher component lemmas. -/
theorem renderTriple_decomp (q a c r : List Char) :
    renderTriple q a c ++ r
      = "**Question:** ".data
          ++ (q ++ (['\n'] ++ (answerLit
             ++ ([' '] ++ (a ++ (['\n'] ++ (contextLit
                ++ (' ' :: '"' :: (c ++ '"' :: r))))))))) := by
  rw [renderTriple,
    show "\n**Answer:** ".data = ['\n'] ++ answerLit ++ [' '] from by decide,
    show "\n**Context:** \"".data = ['\n'] ++ contextLit ++ [' ', '"'] from by decide,
    show "\"".data = ['"'] from by decide]
  simp [List.append_assoc]

/-- The full pattern matches a rendered triple anchored at its start,
capturing the (whitespace-shed) question and answer bodies and exactly the
unquoted context body, and ending right before `r` — provided the lookahead
accepts `r`. -/
theorem tryTriple_render (q a c r : List Char) (hq : '*' ∉ q) (ha : '*' ∉ a)
    (hc : '*' ∉ c) (hcq : '"' ∉ c) (hcne : c ≠ []) (hr : lookaheadOk r = true) :
    ∃ g1 g2, tryTriple (renderTriple q a c ++ r) = some ((g1, g2, c), r)
      ∧ strip g1 = strip q ∧ strip g2 = strip a := by
  have hct : ctxTail (' ' :: '"' :: (c ++ '"' :: r)) = some (c, r) :=
    ctxTail_render c r hcq hc hcne hr
  obtain ⟨g2, hg2, hg2s⟩ := tryContext_shape [' '] a ['\n'] _
    (allWs_single (by decide)) (allWs_single (by decide)) ha hct
  obtain ⟨g1, hg1, hg1s⟩ := tryAnswer_shape [' '] q ['\n'] _
    (allWs_single (by decide)) (allWs_single (by decide)) hq hg2
  refine ⟨g1, g2, ?_, hg1s, hg2s⟩
  rw [renderTriple_decomp, tryTriple_plain_header]
  rw [List.singleton_append] at hg1
  rw [hg1]
  rfl

/-! ### Composition: `findTriples` on whole rendered Q&A segments -/

theorem findTriplesF_nil (n : Nat) : findTriplesF n [] = [] := by
  cases n <;> rfl

theorem findTriplesF_cons_some {c : Char} {t : List Char} {g rest} (n : Nat)
    (h : tryTriple (c :: t) = some (g, rest)) :
    findTriplesF (n + 1) (c :: t) = g :: findTriplesF n rest := by
  rw [findTriplesF, h]

theorem findTriplesF_cons_none {c : Char} {t : List Char} (n : Nat)
    (h : tryTriple (c :: t) = none) :
    findTriplesF (n + 1) (c :: t) = findTriplesF n t := by
  rw [findTriplesF, h]

theorem tryTriple_not_star {c : Char} (t : List Char) (hcs : c ≠ '*') :
    tryTriple (c :: t) = none := by
  have h : leadsWith questionHeaderLit (c :: t) = false := by
    rw [show questionHeaderLit = '*' :: "*Question".data from by decide]
    exact leadsWith_star_head_false _ hcs
  rw [tryTriple, h]
  simp

theorem renderTriple_head2 (q a c : List Char) :
    ∃ z, renderTriple q a c = '*' :: '*' :: z := by
  refine ⟨"Question:** ".data ++ q ++ "\n**Answer:** ".data ++ a
    ++ "\n**Context:** \"".data ++ c ++ "\"".data, ?_⟩
  rw [renderTriple, show "**Question:** ".data = '*' :: '*' :: "Question:** ".data from by decide]
  simp

theorem renderTriple_last (q a c : List Char) :
    ∃ z, renderTriple q a c = z ++ ['"'] := by
  refine ⟨"**Question:** ".data ++ q ++ "\n**Answer:** ".data ++ a
    ++ "\n**Context:** \"".data ++ c, ?_⟩
  rw [renderTriple, show "\"".data = ['"'] from by decide]

theorem renderTriples_head2 (t : List Char × List Char × List Char)
    (ts : List (List Char × List Char × List Char)) :
    ∃ z, renderTriples (t :: ts) = '*' :: '*' :: z := by
  obtain ⟨z, hz⟩ := renderTriple_head2 t.1 t.2.1 t.2.2
  refine ⟨z ++ sepTriples ts, ?_⟩
  rw [renderTriples, hz]
  simp

theorem sepTriples_last :
    ∀ (ts : List (List Char × List Char × List Char))
      (t : List Char × List Char × List Char),
      ∃ z, sepTriples (t :: ts) = z ++ ['"'] := by
  intro ts
  induction ts with
  | nil =>
    intro t
    obtain ⟨z, hz⟩ := renderTriple_last t.1 t.2.1 t.2.2
    refine ⟨"\n".data ++ z, ?_⟩
    rw [sepTriples, sepTriples, hz]
    simp
  | cons t' ts' ih =>
    intro t
    obtain ⟨z, hz⟩ := ih t'
    refine ⟨"\n".data ++ (renderTriple t.1 t.2.1 t.2.2 ++ z), ?_⟩
    rw [sepTriples, hz]
    simp

theorem renderTriples_last (t : List Char × List Char × List Char)
    (ts : List (List Char × List Char × List Char)) :
    ∃ z, renderTriples (t :: ts) = z ++ ['"'] := by
  cases ts with
  | nil =>
    obtain ⟨z, hz⟩ := renderTriple_last t.1 t.2.1 t.2.2
    refine ⟨z, ?_⟩
    rw [renderTriples, sepTriples, hz, List.append_nil]
  | cons t' ts' =>
    obtain ⟨z, hz⟩ := sepTriples_last ts' t'
    refine ⟨renderTriple t.1 t.2.1 t.2.2 ++ z, ?_⟩
    rw [renderTriples, hz]
    simp

theorem lookaheadOk_sep (z : List Char) :
    lookaheadOk ('\n' :: ('*' :: '*' :: z)) = true := by
  rw [lookaheadOk, if_pos rfl, if_neg (by simp)]
  rw [List.dropWhile_cons, if_neg (by decide),
    show starStar = '*' :: ['*'] from by decide]
  simp [leadsWith]

theorem lookaheadOk_sepTriples (ts : List (List Char × List Char × List Char)) :
    lookaheadOk (sepTriples ts) = true := by
  cases ts with
  | nil => rfl
  | cons t2 ts2 =>
    obtain ⟨z2, hz2⟩ := renderTriple_head2 t2.1 t2.2.1 t2.2.2
    rw [sepTriples, hz2, show "\n".data = ['\n'] from by decide,
      List.singleton_append, List.cons_append, List.cons_append]
    exact lookaheadOk_sep _

theorem findTriples_sep :
    ∀ (ts : List (List Char × List Char × List Char)),
      (∀ t ∈ ts, tripleOK t) →
      ∀ n, (sepTriples ts).length ≤ n →
        (findTriplesF (n + 1) (sepTriples ts)).map stripT = ts.map stripT := by
  intro ts
  induction ts with
  | nil =>
    intro _ n _
    rw [sepTriples, findTriplesF_nil]
  | cons t ts' ih =>
    intro hok n hn
    obtain ⟨hq, ha, hc, hcq, hcne⟩ := hok t (List.mem_cons_self t ts')
    obtain ⟨z, hz⟩ := renderTriple_head2 t.1 t.2.1 t.2.2
    obtain ⟨g1, g2, htt, hs1, hs2⟩ :=
      tryTriple_render t.1 t.2.1 t.2.2 (sepTriples ts') hq ha hc hcq hcne
        (lookaheadOk_sepTriples ts')
    have hsep : sepTriples (t :: ts')
        = '\n' :: (renderTriple t.1 t.2.1 t.2.2 ++ sepTriples ts') := by
      rw [sepTriples, show "\n".data = ['\n'] from by decide, List.singleton_append]
    have hXc : renderTriple t.1 t.2.1 t.2.2 ++ sepTriples ts'
        = '*' :: (('*' :: z) ++ sepTriples ts') := by
      rw [hz]
      simp
    have hlength : (sepTriples (t :: ts')).length
        = 1 + ((z.length + 2) + (sepTriples ts').length) := by
      rw [hsep, hz]
      simp only [List.length_cons, List.length_append]
      omega
    rw [hlength] at hn
    rw [hsep]
    cases n with
    | zero => omega
    | succ m =>
      rw [findTriplesF_cons_none (m + 1)
        (tryTriple_not_star (renderTriple t.1 t.2.1 t.2.2 ++ sepTriples ts') (by decide))]
      rw [hXc] at htt
      cases m with
      | zero => omega
      | succ k =>
        rw [hXc, findTriplesF_cons_some (k + 1) htt, List.map_cons, List.map_cons]
        congr 1
        · show (strip g1, strip g2, strip t.2.2) = stripT t
          rw [stripT, hs1, hs2]
        · exact ih (fun x hx => hok x (List.mem_cons_of_mem _ hx)) k (by omega)

theorem findTriples_render (ts : List (List Char × List Char × List Char))
    (hok : ∀ t ∈ ts, tripleOK t) :
    ∀ n, (renderTriples ts).length ≤ n →
      (findTriplesF (n + 1) (renderTriples ts)).map stripT = ts.map stripT := by
  intro n hn
  cases ts with
  | nil =>
    rw [renderTriples, findTriplesF_nil]
  | cons t ts' =>
    obtain ⟨hq, ha, hc, hcq, hcne⟩ := hok t (List.mem_cons_self t ts')
    obtain ⟨z, hz⟩ := renderTriple_head2 t.1 t.2.1 t.2.2
    obtain ⟨g1, g2, htt, hs1, hs2⟩ :=
      tryTriple_render t.1 t.2.1 t.2.2 (sepTriples ts') hq ha hc hcq hcne
        (lookaheadOk_sepTriples ts')
    have hXc : renderTriple t.1 t.2.1 t.2.2 ++ sepTriples ts'
        = '*' :: (('*' :: z) ++ sepTriples ts') := by
      rw [hz]
      simp
    have hlength : (renderTriples (t :: ts')).length
        = (z.length + 2) + (sepTriples ts').length := by
      rw [renderTriples, hz]
      simp only [List.length_cons, List.length_append]
      try omega
    rw [hlength] at hn
    rw [renderTriples, hXc]
    rw [hXc] at htt
    cases n with
    | zero => omega
    | succ m =>
      rw [findTriplesF_cons_some (m + 1) htt, List.map_cons, List.map_cons]
      congr 1
      · show (strip g1, strip g2, strip t.2.2) = stripT t
        rw [stripT, hs1, hs2]
      · exact findTriples_sep ts' (fun x hx => hok x (List.mem_cons_of_mem _ hx)) m (by omega)

/-! ### The two result branches of `parse_analysis` -/

theorem parse_qa_branch (s : List Char) (j : Nat)
    (hnorm : pyReplace s videoSummaryAlias summaryMarker = s)
    (hfind : pyFind qaMarker s = some j) :
    (parse_analysis s).qa
      = (findTriples (strip (s.drop (j + qaMarker.length)))).map
          (fun t => QAEntry.mk (strip t.1) (strip t.2.1) (strip t.2.2)) := by
  simp only [parse_analysis, hnorm, hfind]

theorem parse_summary_slice (s : List Char) (j : Nat)
    (hnorm : pyReplace s videoSummaryAlias summaryMarker = s)
    (hsm : pyFind summaryMarker s = some 0)
    (hqm : pyFind qaMarker s = some j) :
    (parse_analysis s).summary = strip (pySlice s summaryMarker.length j) := by
  simp only [parse_analysis, hnorm, hsm, hqm, Nat.zero_add]

theorem strip_renderTriple (q a c : List Char) :
    strip (renderTriple q a c) = renderTriple q a c := by
  obtain ⟨z2, hz2⟩ := renderTriple_head2 q a c
  obtain ⟨z3, hz3⟩ := renderTriple_last q a c
  rw [strip, stripLeading, hz2, List.dropWhile_cons, if_neg (by decide), ← hz2, hz3,
    stripTrailing_append_last_false _ (by decide), ← hz3]

theorem strip_renderTriples (ts : List (List Char × List Char × List Char)) :
    strip (renderTriples ts) = renderTriples ts := by
  cases ts with
  | nil => rfl
  | cons t ts' =>
    obtain ⟨z2, hz2⟩ := renderTriples_head2 t ts'
    obtain ⟨z3, hz3⟩ := renderTriples_last t ts'
    rw [strip, stripLeading, hz2, List.dropWhile_cons, if_neg (by decide), ← hz2, hz3,
      stripTrailing_append_last_false _ (by decide), ← hz3]

/-! ### Claims C4 and C5 -/

/-- C4: on an input made of the canonical summary marker, summary text, the
canonical Q&A marker and exactly one well-formed triple, the parser returns
the trimmed between-marker text as summary and exactly one Q&A entry holding
the trimmed bodies of the triple, with the surrounding double quotes
stripped from the context body.  The `hqm` hypothesis pins the first
occurrence of the Q&A marker to its explicit position (the summary text does
not spell out a marker of its own), and `halias` says the alias heading does
not occur, so normalization is the identity. -/
theorem C4_canonical_single (st q a c : List Char)
    (hq : '*' ∉ q) (ha : '*' ∉ a) (hc : '*' ∉ c) (hcq : '"' ∉ c) (hcne : c ≠ [])
    (halias : pyFind videoSummaryAlias
        (summaryMarker ++ st ++ qaMarker ++ renderTriple q a c) = none)
    (hqm : pyFind qaMarker (summaryMarker ++ st ++ qaMarker ++ renderTriple q a c)
        = some (summaryMarker ++ st).length) :
    parse_analysis (summaryMarker ++ st ++ qaMarker ++ renderTriple q a c)
      = Analysis.mk (strip st) [QAEntry.mk (strip q) (strip a) (strip c)] := by
  have hnorm := pyReplace_no_occ
    (summaryMarker ++ st ++ qaMarker ++ renderTriple q a c) summaryMarker
    (pyFind_none_not_occ halias)
  have hsm : pyFind summaryMarker
      (summaryMarker ++ st ++ qaMarker ++ renderTriple q a c) = some 0 := by
    apply pyFind_of_leadsWith
    rw [List.append_assoc, List.append_assoc]
    exact leadsWith_append_self _ _
  have hsum : (parse_analysis (summaryMarker ++ st ++ qaMarker ++ renderTriple q a c)).summary
      = strip st := by
    rw [parse_summary_slice _ _ hnorm hsm hqm, pySlice,
      show summaryMarker ++ st ++ qaMarker ++ renderTriple q a c
        = (summaryMarker ++ st) ++ (qaMarker ++ renderTriple q a c) from by
          simp [List.append_assoc],
      List.take_left, List.drop_left]
  have hqa : (parse_analysis (summaryMarker ++ st ++ qaMarker ++ renderTriple q a c)).qa
      = [QAEntry.mk (strip q) (strip a) (strip c)] := by
    rw [parse_qa_branch _ _ hnorm hqm]
    have hdrop : (summaryMarker ++ st ++ qaMarker ++ renderTriple q a c).drop
        ((summaryMarker ++ st).length + qaMarker.length) = renderTriple q a c := by
      rw [show (summaryMarker ++ st).length + qaMarker.length
          = ((summaryMarker ++ st) ++ qaMarker).length from (List.length_append _ _).symm,
        show summaryMarker ++ st ++ qaMarker ++ renderTriple q a c
          = ((summaryMarker ++ st) ++ qaMarker) ++ renderTriple q a c from by
            simp [List.append_assoc],
        List.drop_left]
    rw [hdrop, strip_renderTriple]
    have hok : ∀ t ∈ [(q, a, c)], tripleOK t := by
      intro t ht
      rw [List.mem_singleton] at ht
      subst ht
      exact ⟨hq, ha, hc, hcq, hcne⟩
    have hmain := findTriples_render [(q, a, c)] hok
      ((renderTriples [(q, a, c)]).length) (Nat.le_refl _)
    have hrt : renderTriples [(q, a, c)] = renderTriple q a c := by
      rw [renderTriples, sepTriples, List.append_nil]
    rw [hrt] at hmain
    calc (findTriples (renderTriple q a c)).map
          (fun t => QAEntry.mk (strip t.1) (strip t.2.1) (strip t.2.2))
        = ((findTriples (renderTriple q a c)).map stripT).map
            (fun p => QAEntry.mk p.1 p.2.1 p.2.2) := by
          rw [List.map_map]
          rfl
      _ = ([((q, a, c))].map stripT).map (fun p => QAEntry.mk p.1 p.2.1 p.2.2) := by
          rw [findTriples, hmain]
      _ = [QAEntry.mk (strip q) (strip a) (strip c)] := rfl
  rw [show parse_analysis (summaryMarker ++ st ++ qaMarker ++ renderTriple q a c)
      = Analysis.mk
          (parse_analysis (summaryMarker ++ st ++ qaMarker ++ renderTriple q a c)).summary
          (parse_analysis (summaryMarker ++ st ++ qaMarker ++ renderTriple q a c)).qa
    from rfl, hsum, hqa]

/-- Witness for C4 at a concrete single-triple input. -/
theorem C4_canonical_single_w :
    parse_analysis (summaryMarker ++ " The video. ".data ++ qaMarker
        ++ renderTriple "What?".data "That.".data "The video.".data)
      = Analysis.mk "The video.".data
          [QAEntry.mk "What?".data "That.".data "The video.".data] := by
  rw [C4_canonical_single " The video. ".data "What?".data "That.".data "The video.".data
    (by decide) (by decide) (by decide) (by decide) (by decide) (by decide) (by decide)]
  decide

/-- C5: on an input whose Q&A segment consists of `N` well-formed triples,
the parser's `qa` holds exactly `N` entries, in source order, each carrying
the trimmed bodies of its triple.  `hqm` pins the first occurrence of the
Q&A marker to its explicit position and `halias` rules out the alias
heading, so normalization is the identity. -/
theorem C5_n_triples (pre : List Char) (ts : List (List Char × List Char × List Char))
    (hok : ∀ t ∈ ts, tripleOK t)
    (halias : pyFind videoSummaryAlias (pre ++ qaMarker ++ renderTriples ts) = none)
    (hqm : pyFind qaMarker (pre ++ qaMarker ++ renderTriples ts) = some pre.length) :
    (parse_analysis (pre ++ qaMarker ++ renderTriples ts)).qa
        = ts.map (fun t => QAEntry.mk (strip t.1) (strip t.2.1) (strip t.2.2))
    ∧ (parse_analysis (pre ++ qaMarker ++ renderTriples ts)).qa.length = ts.length := by
  have hnorm := pyReplace_no_occ (pre ++ qaMarker ++ renderTriples ts) summaryMarker
    (pyFind_none_not_occ halias)
  have hqa : (parse_analysis (pre ++ qaMarker ++ renderTriples ts)).qa
      = ts.map (fun t => QAEntry.mk (strip t.1) (strip t.2.1) (strip t.2.2)) := by
    rw [parse_qa_branch _ _ hnorm hqm]
    have hdrop : (pre ++ qaMarker ++ renderTriples ts).drop
        (pre.length + qaMarker.length) = renderTriples ts := by
      rw [show pre.length + qaMarker.length = (pre ++ qaMarker).length
          from (List.length_append _ _).symm, List.drop_left]
    rw [hdrop, strip_renderTriples]
    have hmain := findTriples_render ts hok ((renderTriples ts).length) (Nat.le_refl _)
    calc (findTriples (renderTriples ts)).map
          (fun t => QAEntry.mk (strip t.1) (strip t.2.1) (strip t.2.2))
        = ((findTriples (renderTriples ts)).map stripT).map
            (fun p => QAEntry.mk p.1 p.2.1 p.2.2) := by
          rw [List.map_map]
          rfl
      _ = (ts.map stripT).map (fun p => QAEntry.mk p.1 p.2.1 p.2.2) := by
          rw [findTriples, hmain]
      _ = ts.map (fun t => QAEntry.mk (strip t.1) (strip t.2.1) (strip t.2.2)) := by
          rw [List.map_map]
          rfl
  exact ⟨hqa, by rw [hqa, List.length_map]⟩

/-- Witness for C5 at a concrete three-triple input whose prefix holds a
summary section. -/
theorem C5_n_triples_w :
    (parse_analysis ("**Summary:** s\n".data ++ qaMarker
        ++ renderTriples [("q1".data, "a1".data, "c1".data),
            ("q2".data, "a2".data, "c2".data), ("q3".data, "a3".data, "c3".data)])).qa
      = [QAEntry.mk "q1".data "a1".data "c1".data,
         QAEntry.mk "q2".data "a2".data "c2".data,
         QAEntry.mk "q3".data "a3".data "c3".data] := by
  rw [(C5_n_triples "**Summary:** s\n".data
    [("q1".data, "a1".data, "c1".data), ("q2".data, "a2".data, "c2".data),
     ("q3".data, "a3".data, "c3".data)]
    (by intro t ht; fin_cases ht <;> exact ⟨by decide, by decide, by decide, by decide, by decide⟩)
    (by decide) (by decide)).1]
  decide

/-! ### Claim C10 -/

theorem stripTrailing_ends_nonws (X : List Char) :
    stripTrailing X = [] ∨ ∃ z y, stripTrailing X = z ++ [y] ∧ pyIsSpace y = false := by
  unfold stripTrailing
  cases hdw : X.reverse.dropWhile pyIsSpace with
  | nil => left; rfl
  | cons y t =>
    right
    refine ⟨t.reverse, y, by rw [List.reverse_cons], ?_⟩
    have := List.head?_dropWhile_not pyIsSpace X.reverse
    rw [hdw] at this
    simpa using this

theorem occursIn_strip {pat s : List Char} {x y : Char} {p2 z0 : List Char}
    (hocc : occursIn pat s)
    (hhead : pat = x :: p2) (hheadw : pyIsSpace x = false)
    (hlast : pat = z0 ++ [y]) (hlastw : pyIsSpace y = false) :
    occursIn pat (strip s) := by
  obtain ⟨a, b, rfl⟩ := hocc
  rw [strip, stripLeading]
  have h1 : (a ++ pat ++ b).dropWhile pyIsSpace
      = a.dropWhile pyIsSpace ++ (pat ++ b) := by
    rw [List.append_assoc, hhead, List.cons_append]
    exact dropWhile_append_head_false _ _ hheadw
  rw [h1]
  obtain ⟨W, hW, hb⟩ := stripTrailing_decomp b
  rcases stripTrailing_ends_nonws b with hb0 | ⟨z1, y1, hb1, hy1⟩
  · rw [hb0, List.nil_append] at hb
    subst hb
    rw [show a.dropWhile pyIsSpace ++ (pat ++ b)
        = (a.dropWhile pyIsSpace ++ pat) ++ b from by rw [List.append_assoc],
      stripTrailing_append_allws _ hW, hlast,
      show a.dropWhile pyIsSpace ++ (z0 ++ [y])
        = (a.dropWhile pyIsSpace ++ z0) ++ [y] from by rw [List.append_assoc],
      stripTrailing_append_last_false _ hlastw]
    exact ⟨a.dropWhile pyIsSpace, [], by simp⟩
  · have h2 : a.dropWhile pyIsSpace ++ (pat ++ b)
        = (a.dropWhile pyIsSpace ++ (pat ++ stripTrailing b)) ++ W := by
      conv_lhs => rw [hb]
      simp [List.append_assoc]
    rw [h2, stripTrailing_append_allws _ hW, hb1,
      show a.dropWhile pyIsSpace ++ (pat ++ (z1 ++ [y1]))
        = (a.dropWhile pyIsSpace ++ (pat ++ z1)) ++ [y1] from by simp [List.append_assoc],
      stripTrailing_append_last_false _ hy1]
    exact ⟨a.dropWhile pyIsSpace, z1 ++ [y1], by simp [List.append_assoc]⟩

/-- C10 (implicit edge case): when the normalized input contains the Q&A
marker but not the summary marker, the summary is the entire trimmed input —
the Q&A marker and everything after it included — while `qa` is still
populated from the text after the marker, so the Q&A content appears both
inside the summary string and as extracted entries. -/
theorem C10_summary_swallows_qa (s : List Char) (j : Nat)
    (hsm : pyFind summaryMarker (pyReplace s videoSummaryAlias summaryMarker) = none)
    (hqm : pyFind qaMarker (pyReplace s videoSummaryAlias summaryMarker) = some j) :
    (parse_analysis s).summary = strip s
    ∧ occursIn qaMarker (parse_analysis s).summary
    ∧ (parse_analysis s).qa
        = (findTriples (strip (s.drop (j + qaMarker.length)))).map
            (fun t => QAEntry.mk (strip t.1) (strip t.2.1) (strip t.2.2)) := by
  have hnal : ¬ occursIn videoSummaryAlias s := fun h =>
    pyFind_none_not_occ hsm (pyReplace_occ_rep s summaryMarker (by decide) h)
  have hid : pyReplace s videoSummaryAlias summaryMarker = s := pyReplace_no_occ s _ hnal
  rw [hid] at hsm hqm
  have hsummary : (parse_analysis s).summary = strip s := by
    simp only [parse_analysis, hid, hsm]
  refine ⟨hsummary, ?_, parse_qa_branch s j hid hqm⟩
  rw [hsummary]
  exact occursIn_strip (pyFind_some_occ hqm)
    (show qaMarker = '*' :: "*Questions and Answers:**".data from by decide) (by decide)
    (show qaMarker = "**Questions and Answers:*".data ++ ['*'] from by decide) (by decide)

/-- Witness for C10: a concrete input with Q&A marker but no summary marker.
The summary is the whole trimmed input and the triple is still extracted. -/
theorem C10_summary_swallows_qa_w :
    pyFind summaryMarker (pyReplace
        "intro **Questions and Answers:**\n**Question:** q\n**Answer:** a\n**Context:** \"c\"".data
        videoSummaryAlias summaryMarker) = none
    ∧ pyFind qaMarker (pyReplace
        "intro **Questions and Answers:**\n**Question:** q\n**Answer:** a\n**Context:** \"c\"".data
        videoSummaryAlias summaryMarker) = some 6
    ∧ (parse_analysis
        "intro **Questions and Answers:**\n**Question:** q\n**Answer:** a\n**Context:** \"c\"".data).summary
      = strip "intro **Questions and Answers:**\n**Question:** q\n**Answer:** a\n**Context:** \"c\"".data
    ∧ occursIn qaMarker (parse_analysis
        "intro **Questions and Answers:**\n**Question:** q\n**Answer:** a\n**Context:** \"c\"".data).summary
    ∧ (parse_analysis
        "intro **Questions and Answers:**\n**Question:** q\n**Answer:** a\n**Context:** \"c\"".data).qa
      = [QAEntry.mk "q".data "a".data "c".data] :=
  ⟨by decide, by decide,
    (C10_summary_swallows_qa _ 6 (by decide) (by decide)).1,
    (C10_summary_swallows_qa _ 6 (by decide) (by decide)).2.1,
    by decide⟩

/-! ### Claim C3: a truncated triple merges into the next question body -/

theorem dropWhile_eq_drop (p : Char → Bool) :
    ∀ (X : List Char), X.dropWhile p = X.drop (X.takeWhile p).length := by
  intro X
  induction X with
  | nil => rfl
  | cons c t ih =>
    rw [List.dropWhile_cons, List.takeWhile_cons]
    by_cases hc : p c = true
    · rw [if_pos hc, if_pos hc, List.length_cons, List.drop_succ_cons, ih]
    · rw [if_neg hc, if_neg hc]
      rfl

theorem length_takeWhile_le (p : Char → Bool) (X : List Char) :
    (X.takeWhile p).length ≤ X.length := by
  have h := congrArg List.length (List.takeWhile_append_dropWhile p X)
  rw [List.length_append] at h
  omega

theorem noEarly_dropWhile {lit X Y : List Char}
    (h : ∀ j, j < X.length → leadsWith lit ((X ++ Y).drop j) = false) :
    ∀ j, j < (X.dropWhile pyIsSpace).length →
      leadsWith lit ((X.dropWhile pyIsSpace ++ Y).drop j) = false := by
  intro j hj
  have hwle : (X.takeWhile pyIsSpace).length ≤ X.length := length_takeWhile_le _ X
  rw [dropWhile_eq_drop pyIsSpace X] at hj ⊢
  rw [← List.drop_append_of_le_length hwle, List.drop_drop]
  apply h
  rw [List.length_drop] at hj
  omega

theorem noEarly_m0 (P1 P2 Y : List Char) (h1 : '*' ∉ P1) (h2 : '*' ∉ P2) :
    ∀ j, j < (P1 ++ ("**Question:** ".data ++ P2)).length →
      leadsWith answerLit (((P1 ++ ("**Question:** ".data ++ P2)) ++ Y).drop j) = false := by
  intro j hj
  rw [List.length_append, List.length_append,
    show ("**Question:** ".data : List Char).length = 14 from by decide] at hj
  have hAcons : answerLit = '*' :: "*Answer:**".data := by decide
  by_cases hjP : j < P1.length
  · rw [List.append_assoc, hAcons]
    exact noEarly_star h1 j hjP
  · push_neg at hjP
    obtain ⟨i, rfl⟩ : ∃ i, j = P1.length + i := ⟨j - P1.length, by omega⟩
    rw [List.append_assoc, ← List.drop_drop, List.drop_left, List.append_assoc]
    by_cases him : i < 14
    · rw [List.drop_append_of_le_length (by
        rw [show ("**Question:** ".data : List Char).length = 14 from by decide]
        omega)]
      interval_cases i
      · rw [leadsWith_append_long _ _ _ (by decide)]; decide
      · rw [leadsWith_append_long _ _ _ (by decide)]; decide
      · rw [leadsWith_append_long _ _ _ (by decide)]; decide
      · rw [leadsWith_append_split _ _ _ (by decide),
          show leadsWith (List.drop 3 ("**Question:** ".data)) answerLit = false from by decide,
          Bool.false_and]
      · rw [leadsWith_append_split _ _ _ (by decide),
          show leadsWith (List.drop 4 ("**Question:** ".data)) answerLit = false from by decide,
          Bool.false_and]
      · rw [leadsWith_append_split _ _ _ (by decide),
          show leadsWith (List.drop 5 ("**Question:** ".data)) answerLit = false from by decide,
          Bool.false_and]
      · rw [leadsWith_append_split _ _ _ (by decide),
          show leadsWith (List.drop 6 ("**Question:** ".data)) answerLit = false from by decide,
          Bool.false_and]
      · rw [leadsWith_append_split _ _ _ (by decide),
          show leadsWith (List.drop 7 ("**Question:** ".data)) answerLit = false from by decide,
          Bool.false_and]
      · rw [leadsWith_append_split _ _ _ (by decide),
          show leadsWith (List.drop 8 ("**Question:** ".data)) answerLit = false from by decide,
          Bool.false_and]
      · rw [leadsWith_append_split _ _ _ (by decide),
          show leadsWith (List.drop 9 ("**Question:** ".data)) answerLit = false from by decide,
          Bool.false_and]
      · rw [leadsWith_append_split _ _ _ (by decide),
          show leadsWith (List.drop 10 ("**Question:** ".data)) answerLit = false from by decide,
          Bool.false_and]
      · rw [leadsWith_append_split _ _ _ (by decide),
          show leadsWith (List.drop 11 ("**Question:** ".data)) answerLit = false from by decide,
          Bool.false_and]
      · rw [leadsWith_append_split _ _ _ (by decide),
          show leadsWith (List.drop 12 ("**Question:** ".data)) answerLit = false from by decide,
          Bool.false_and]
      · rw [leadsWith_append_split _ _ _ (by decide),
          show leadsWith (List.drop 13 ("**Question:** ".data)) answerLit = false from by decide,
          Bool.false_and]
    · push_neg at him
      obtain ⟨k, rfl⟩ : ∃ k, i = 14 + k := ⟨i - 14, by omega⟩
      rw [show (14 : Nat) + k = ("**Question:** ".data : List Char).length + k from by
          rw [show ("**Question:** ".data : List Char).length = 14 from by decide],
        ← List.drop_drop, List.drop_left, hAcons]
      exact noEarly_star h2 k (by omega)

/-- On a truncated question header followed by a fresh question header, the
lazy first group runs across the embedded header up to the first
`**Answer:**` literal: the captured question body is the truncated body, the
embedded header and the next question body merged. -/
theorem tryAnswer_merged (q1 q R1 : List Char) (hq1 : '*' ∉ q1) (hq : '*' ∉ q)
    {g2 g3 rest : List Char} (hct : tryContext R1 = some (g2, g3, rest)) :
    ∃ g1, tryAnswer (((' ' :: (q1 ++ ['\n'])) ++ ("**Question:** ".data ++ (q ++ ['\n'])))
        ++ (answerLit ++ R1)) = some (g1, g2, g3, rest)
      ∧ strip g1 = strip (q1 ++ "\n**Question:** ".data ++ q) := by
  have hP1 : '*' ∉ (' ' :: (q1 ++ ['\n'])) := by
    intro h
    rcases List.mem_cons.1 h with h | h
    · exact absurd h (by decide)
    · rcases List.mem_append.1 h with h | h
      · exact hq1 h
      · rw [List.mem_singleton] at h
        exact absurd h (by decide)
  have hP2 : '*' ∉ (q ++ ['\n']) := by
    intro h
    rcases List.mem_append.1 h with h | h
    · exact hq h
    · rw [List.mem_singleton] at h
      exact absurd h (by decide)
  have hne := noEarly_m0 (' ' :: (q1 ++ ['\n'])) (q ++ ['\n']) (answerLit ++ R1) hP1 hP2
  have hd1 : (((' ' :: (q1 ++ ['\n'])) ++ ("**Question:** ".data ++ (q ++ ['\n'])))
        ++ (answerLit ++ R1)).dropWhile pyIsSpace
      = ((' ' :: (q1 ++ ['\n'])) ++ ("**Question:** ".data ++ (q ++ ['\n']))).dropWhile
          pyIsSpace ++ (answerLit ++ R1) := by
    rw [show answerLit ++ R1 = '*' :: ("*Answer:**".data ++ R1) from by
      rw [show answerLit = '*' :: "*Answer:**".data from by decide]; simp]
    exact dropWhile_append_head_false _ _ (by decide)
  obtain ⟨l, hsp⟩ := splits_head answerLit
    (((' ' :: (q1 ++ ['\n'])) ++ ("**Question:** ".data ++ (q ++ ['\n']))).dropWhile pyIsSpace)
    R1 (by decide) (noEarly_dropWhile hne)
  refine ⟨stripTrailing (((' ' :: (q1 ++ ['\n']))
    ++ ("**Question:** ".data ++ (q ++ ['\n']))).dropWhile pyIsSpace), ?_, ?_⟩
  · rw [tryAnswer, hd1, hsp]
    exact firstSome_cons_some (by rw [hct]; rfl)
  · rw [strip_stripTrailing,
      show ((' ' :: (q1 ++ ['\n'])) ++ ("**Question:** ".data ++ (q ++ ['\n']))).dropWhile
          pyIsSpace
        = stripLeading ((' ' :: (q1 ++ ['\n'])) ++ ("**Question:** ".data ++ (q ++ ['\n'])))
        from rfl,
      strip_stripLeading]
    have hX2 : (' ' :: (q1 ++ ['\n'])) ++ ("**Question:** ".data ++ (q ++ ['\n']))
        = [' '] ++ (q1 ++ (['\n'] ++ ("**Question:** ".data ++ q))) ++ ['\n'] := by
      simp [List.append_assoc]
    rw [hX2, strip_sandwich _ (allWs_single (by decide)) (allWs_single (by decide))]
    congr 1
    rw [show ("\n**Question:** ".data : List Char)
        = ['\n'] ++ "**Question:** ".data from by decide]
    simp [List.append_assoc]

/-- The full pattern on a truncated `**Question:**` fragment followed by a
well-formed triple: one single match, whose answer and context groups are
the well-formed triple's, but whose question group merges the truncated
body, the embedded question header and the next question body. -/
theorem tryTriple_merged (q1 q a c r : List Char)
    (hq1 : '*' ∉ q1) (hq : '*' ∉ q) (ha : '*' ∉ a) (hc : '*' ∉ c) (hcq : '"' ∉ c)
    (hcne : c ≠ []) (hr : lookaheadOk r = true) :
    ∃ g1 g2,
      tryTriple (("**Question:** ".data ++ (q1 ++ ('\n' :: renderTriple q a c))) ++ r)
        = some ((g1, g2, c), r)
      ∧ strip g1 = strip (q1 ++ "\n**Question:** ".data ++ q)
      ∧ strip g2 = strip a := by
  have hct := ctxTail_render c r hcq hc hcne hr
  obtain ⟨g2, hg2, hg2s⟩ := tryContext_shape [' '] a ['\n'] _
    (allWs_single (by decide)) (allWs_single (by decide)) ha hct
  obtain ⟨g1, hg1, hg1s⟩ := tryAnswer_merged q1 q _ hq1 hq hg2
  refine ⟨g1, g2, ?_, hg1s, hg2s⟩
  have harr : ("**Question:** ".data ++ (q1 ++ ('\n' :: renderTriple q a c))) ++ r
      = "**Question:** ".data ++ (q1 ++ ('\n' :: (renderTriple q a c ++ r))) := by
    simp [List.append_assoc]
  rw [harr, tryTriple_plain_header, renderTriple_decomp]
  simp only [List.append_assoc, List.cons_append, List.singleton_append, List.nil_append,
    List.append_nil] at hg1 ⊢
  rw [hg1]
  rfl

/-- C3 counterexample: on a truncated triple (question header with no
following answer header) followed by a well-formed triple, the code does
not extract the well-formed triple intact: the single extracted entry's
question body merges the truncated fragment, the embedded question header
and the next question body, instead of being exactly `q`. -/
theorem C3_counterexample :
    (parse_analysis
        "**Summary:** s\n**Questions and Answers:**\n**Question:** bad\n**Question:** q\n**Answer:** a\n**Context:** \"c\"".data).qa
      = [QAEntry.mk "bad\n**Question:** q".data "a".data "c".data]
    ∧ "bad\n**Question:** q".data ≠ "q".data :=
  ⟨by decide, by decide⟩

/-- C3 as amended: for an input whose Q&A segment is a truncated triple
(a question header and body with no answer header) followed by a well-formed
triple, `qa` gets exactly one entry; its answer and context are the trimmed
bodies of the well-formed triple (quotes stripped), but its question is the
trimmed concatenation of the truncated body, the next question header and
the next question body.  The truncated triple thus contributes no entry of
its own, yet it does corrupt the question body of the following triple. -/
theorem C3_merged_extraction (pre q1 q a c : List Char)
    (hq1 : '*' ∉ q1) (hq : '*' ∉ q) (ha : '*' ∉ a) (hc : '*' ∉ c) (hcq : '"' ∉ c)
    (hcne : c ≠ [])
    (halias : pyFind videoSummaryAlias (pre ++ qaMarker
        ++ ("**Question:** ".data ++ (q1 ++ ('\n' :: renderTriple q a c)))) = none)
    (hqm : pyFind qaMarker (pre ++ qaMarker
        ++ ("**Question:** ".data ++ (q1 ++ ('\n' :: renderTriple q a c))))
      = some pre.length) :
    (parse_analysis (pre ++ qaMarker
        ++ ("**Question:** ".data ++ (q1 ++ ('\n' :: renderTriple q a c))))).qa
      = [QAEntry.mk (strip (q1 ++ "\n**Question:** ".data ++ q)) (strip a) (strip c)] := by
  have hnorm := pyReplace_no_occ
    (pre ++ qaMarker ++ ("**Question:** ".data ++ (q1 ++ ('\n' :: renderTriple q a c))))
    summaryMarker (pyFind_none_not_occ halias)
  rw [parse_qa_branch _ _ hnorm hqm]
  have hdrop : (pre ++ qaMarker
      ++ ("**Question:** ".data ++ (q1 ++ ('\n' :: renderTriple q a c)))).drop
        (pre.length + qaMarker.length)
      = "**Question:** ".data ++ (q1 ++ ('\n' :: renderTriple q a c)) := by
    rw [show pre.length + qaMarker.length = (pre ++ qaMarker).length
        from (List.length_append _ _).symm, List.drop_left]
  rw [hdrop]
  obtain ⟨z2, hz2⟩ : ∃ z2, "**Question:** ".data ++ (q1 ++ ('\n' :: renderTriple q a c))
      = '*' :: '*' :: z2 := by
    refine ⟨"Question:** ".data ++ (q1 ++ ('\n' :: renderTriple q a c)), ?_⟩
    rw [show "**Question:** ".data = '*' :: '*' :: "Question:** ".data from by decide]
    simp
  obtain ⟨z3, hz3⟩ : ∃ z3, "**Question:** ".data ++ (q1 ++ ('\n' :: renderTriple q a c))
      = z3 ++ ['"'] := by
    obtain ⟨z, hz⟩ := renderTriple_last q a c
    refine ⟨"**Question:** ".data ++ (q1 ++ ('\n' :: z)), ?_⟩
    rw [hz]
    simp [List.append_assoc]
  have hstrip : strip ("**Question:** ".data ++ (q1 ++ ('\n' :: renderTriple q a c)))
      = "**Question:** ".data ++ (q1 ++ ('\n' :: renderTriple q a c)) := by
    rw [strip, stripLeading, hz2, List.dropWhile_cons, if_neg (by decide), ← hz2, hz3,
      stripTrailing_append_last_false _ (by decide), ← hz3]
  rw [hstrip]
  obtain ⟨g1, g2, htt, hs1, hs2⟩ :=
    tryTriple_merged q1 q a c [] hq1 hq ha hc hcq hcne rfl
  rw [List.append_nil] at htt
  rw [findTriples, hz2]
  rw [hz2] at htt
  simp only [List.length_cons]
  rw [findTriplesF_cons_some _ htt, findTriplesF_nil, List.map_cons, List.map_nil]
  rw [hs1, hs2]

/-- Witness for the amended C3 at a concrete input. -/
theorem C3_merged_extraction_w :
    (parse_analysis ("**Summary:** s\n".data ++ qaMarker
        ++ ("**Question:** ".data
            ++ ("bad".data ++ ('\n' :: renderTriple "q".data "a".data "c".data))))).qa
      = [QAEntry.mk "bad\n**Question:** q".data "a".data "c".data] := by
  rw [C3_merged_extraction "**Summary:** s\n".data "bad".data "q".data "a".data "c".data
    (by decide) (by decide) (by decide) (by decide) (by decide) (by decide)
    (by decide) (by decide)]
  decide

end Pipeline
